import Mathlib

/-!
Shallow embedding of `src/sodium/gc.rs`: a pure reference-counting garbage
collector with synchronous trial-deletion cycle collection (Bacon et al.).

Heap nodes are identified by `Nat` ids (modelling the stable raw-pointer
addresses; the allocator never reuses an id because `nextId` is monotone,
matching `ptr::eq`-based identity in the source).  The mutable Rust heap is
modelled as an association list from ids to `Node` records; `WeakNode`
records live in a second association list.  The `i32` reference count is
modelled as `Int` (no claim depends on 32-bit wrap-around).  The type-erased
`Box<Any>` payload is modelled as a record carrying a type tag (`TypeId`)
and an opaque value, which is exactly the information `downcast_ref`
consults.  Recursive procedures of the source (`decrement`/`release`,
`mark_gray`, `scan`, `scan_black`, `collect_white`) recurse through the heap
graph, so they take a fuel parameter and return `none` on fuel exhaustion;
a run that returns `some` is exactly a terminating run of the source code
(fuel only bounds the number of steps, it never alters a completed run).
-/

abbrev NodeId := Nat

inductive Colour where
  | Black
  | Purple
  | White
  | Gray
deriving DecidableEq, Repr

/-- Model of the type-erased `Box<Any>` payload: a `TypeId` tag plus an
opaque value, which is the information `downcast_ref::<A>` consults. -/
structure AnyBox where
  ty : Nat
  val : Nat
deriving DecidableEq, Repr

/-- `struct Node` of the source: refcount, colour, buffered flag,
child edges, weak back-pointers, payload. -/
structure Node where
  count : Int
  colour : Colour
  buffered : Bool
  children : List NodeId
  weakNodes : List NodeId
  data : AnyBox
deriving DecidableEq, Repr

/-- `struct WeakNode` of the source: an optional pointer to a `Node`. -/
structure WeakNode where
  node : Option NodeId
deriving DecidableEq, Repr

/-- `struct GcCtx` of the source, together with the heap it manipulates
through raw pointers.  `freedLog` records the ids passed to `system_free`
in order, so that claims about frees are observable. -/
structure GcCtx where
  roots : List NodeId
  autoCollectCyclesOnDecrement : Bool
  heap : List (NodeId × Node)
  weaks : List (NodeId × WeakNode)
  nextId : Nat
  freedLog : List NodeId
deriving DecidableEq, Repr

/-- First-match association-list lookup (a raw pointer dereference). -/
def lookupA {α : Type} : List (NodeId × α) → NodeId → Option α
  | [], _ => none
  | (k, v) :: rest, i => if k = i then some v else lookupA rest i

/-- In-place update of every entry with the given key (a write through a
raw pointer; keys are unique in every reachable state). -/
def updateA {α : Type} (f : α → α) : List (NodeId × α) → NodeId → List (NodeId × α)
  | [], _ => []
  | (k, v) :: rest, i =>
    if k = i then (k, f v) :: updateA f rest i else (k, v) :: updateA f rest i

/-- Removal of every entry with the given key (deallocation). -/
def removeA {α : Type} : List (NodeId × α) → NodeId → List (NodeId × α)
  | [], _ => []
  | (k, v) :: rest, i => if k = i then removeA rest i else (k, v) :: removeA rest i

def GcCtx.node (σ : GcCtx) (s : NodeId) : Option Node :=
  lookupA σ.heap s

def GcCtx.weak (σ : GcCtx) (w : NodeId) : Option WeakNode :=
  lookupA σ.weaks w

def GcCtx.modifyNode (σ : GcCtx) (s : NodeId) (f : Node → Node) : GcCtx :=
  { σ with heap := updateA f σ.heap s }

def GcCtx.modifyWeak (σ : GcCtx) (w : NodeId) (f : WeakNode → WeakNode) : GcCtx :=
  { σ with weaks := updateA f σ.weaks w }

/-- `GcCtx::new`. -/
def GcCtx.new : GcCtx :=
  { roots := []
    autoCollectCyclesOnDecrement := true
    heap := []
    weaks := []
    nextId := 0
    freedLog := [] }

/-- `GcCtx::new_gc`: allocate a fresh node with `count = 1`,
`colour = Black`, `buffered = false`, empty child and weak lists. -/
def GcCtx.newGc (σ : GcCtx) (value : AnyBox) : NodeId × GcCtx :=
  (σ.nextId,
   { σ with
       heap := σ.heap ++ [(σ.nextId, Node.mk 1 Colour.Black false [] [] value)]
       nextId := σ.nextId + 1 })

/-- `GcCtx::increment`: `s.count += 1; s.colour = Black`. -/
def GcCtx.increment (σ : GcCtx) (s : NodeId) : GcCtx :=
  σ.modifyNode s (fun n => { n with count := n.count + 1, colour := Colour.Black })

/-- `GcCtx::possible_root`. -/
def GcCtx.possibleRoot (σ : GcCtx) (s : NodeId) : GcCtx :=
  match σ.node s with
  | none => σ
  | some n =>
    if n.colour = Colour.Purple then σ
    else
      let σ₁ := σ.modifyNode s (fun m => { m with colour := Colour.Purple })
      if n.buffered then σ₁
      else
        let σ₂ := σ₁.modifyNode s (fun m => { m with buffered := true })
        { σ₂ with roots := σ₂.roots ++ [s] }

/-- Null the `node` field of each listed `WeakNode` (the loop in
`impl Drop for Node`). -/
def nullWeaks (σ : GcCtx) : List NodeId → GcCtx
  | [] => σ
  | w :: ws => nullWeaks (σ.modifyWeak w (fun _ => WeakNode.mk none)) ws

/-- `GcCtx::system_free`: drop the `Node` box.  The node's destructor nulls
the `node` field of every registered weak back-pointer, then the record
(and payload) is released; the id is appended to the free log. -/
def GcCtx.systemFree (σ : GcCtx) (s : NodeId) : GcCtx :=
  match σ.node s with
  | none => σ
  | some n =>
    let σ₁ := nullWeaks σ n.weakNodes
    let σ₂ := { σ₁ with heap := removeA σ₁.heap s }
    { σ₂ with freedLog := σ₂.freedLog ++ [s] }

mutual

/-- `GcCtx::decrement`: `s.count -= 1`; on zero `release`, else
`possible_root`. -/
def GcCtx.decrement : Nat → GcCtx → NodeId → Option GcCtx
  | 0, _, _ => none
  | fuel+1, σ, s =>
    match σ.node s with
    | none => some σ
    | some n =>
      let σ₁ := σ.modifyNode s (fun m => { m with count := m.count - 1 })
      if n.count - 1 = 0 then GcCtx.release fuel σ₁ s
      else some (σ₁.possibleRoot s)

/-- `GcCtx::release`: decrement every child, set the colour Black, and
free the node unless it is buffered. -/
def GcCtx.release : Nat → GcCtx → NodeId → Option GcCtx
  | 0, _, _ => none
  | fuel+1, σ, s =>
    match σ.node s with
    | none => some σ
    | some n => do
      let σ₁ ← GcCtx.decrementKids fuel σ n.children
      let σ₂ := σ₁.modifyNode s (fun m => { m with colour := Colour.Black })
      match σ₂.node s with
      | none => some σ₂
      | some m => if m.buffered then some σ₂ else some (σ₂.systemFree s)

/-- The child loop of `release`. -/
def GcCtx.decrementKids : Nat → GcCtx → List NodeId → Option GcCtx
  | 0, _, _ => none
  | _+1, σ, [] => some σ
  | fuel+1, σ, t :: ts => do
    let σ₁ ← GcCtx.decrement fuel σ t
    GcCtx.decrementKids fuel σ₁ ts

end

mutual

/-- `GcCtx::mark_gray`. -/
def GcCtx.markGray : Nat → GcCtx → NodeId → Option GcCtx
  | 0, _, _ => none
  | fuel+1, σ, s =>
    match σ.node s with
    | none => some σ
    | some n =>
      if n.colour = Colour.Gray then some σ
      else
        GcCtx.markGrayKids fuel
          (σ.modifyNode s (fun m => { m with colour := Colour.Gray })) n.children

/-- The child loop of `mark_gray`: `t.count -= 1; mark_gray(t)`. -/
def GcCtx.markGrayKids : Nat → GcCtx → List NodeId → Option GcCtx
  | 0, _, _ => none
  | _+1, σ, [] => some σ
  | fuel+1, σ, t :: ts => do
    let σ₁ := σ.modifyNode t (fun m => { m with count := m.count - 1 })
    let σ₂ ← GcCtx.markGray fuel σ₁ t
    GcCtx.markGrayKids fuel σ₂ ts

end

mutual

/-- `GcCtx::scan_black`: recolour Black and add back one to each child's
count, recursing into children that are not already Black. -/
def GcCtx.scanBlack : Nat → GcCtx → NodeId → Option GcCtx
  | 0, _, _ => none
  | fuel+1, σ, s =>
    match σ.node s with
    | none => some σ
    | some n =>
      GcCtx.scanBlackKids fuel
        (σ.modifyNode s (fun m => { m with colour := Colour.Black })) n.children

/-- The child loop of `scan_black`. -/
def GcCtx.scanBlackKids : Nat → GcCtx → List NodeId → Option GcCtx
  | 0, _, _ => none
  | _+1, σ, [] => some σ
  | fuel+1, σ, t :: ts => do
    let σ₁ := σ.modifyNode t (fun m => { m with count := m.count + 1 })
    match σ₁.node t with
    | none => GcCtx.scanBlackKids fuel σ₁ ts
    | some m =>
      if m.colour = Colour.Black then GcCtx.scanBlackKids fuel σ₁ ts
      else do
        let σ₂ ← GcCtx.scanBlack fuel σ₁ t
        GcCtx.scanBlackKids fuel σ₂ ts

end

mutual

/-- `GcCtx::scan`. -/
def GcCtx.scan : Nat → GcCtx → NodeId → Option GcCtx
  | 0, _, _ => none
  | fuel+1, σ, s =>
    match σ.node s with
    | none => some σ
    | some n =>
      if n.colour = Colour.Gray then
        if n.count > 0 then GcCtx.scanBlack (fuel+1) σ s
        else
          GcCtx.scanKids fuel
            (σ.modifyNode s (fun m => { m with colour := Colour.White })) n.children
      else some σ

/-- The child loop of `scan`. -/
def GcCtx.scanKids : Nat → GcCtx → List NodeId → Option GcCtx
  | 0, _, _ => none
  | _+1, σ, [] => some σ
  | fuel+1, σ, t :: ts => do
    let σ₁ ← GcCtx.scan fuel σ t
    GcCtx.scanKids fuel σ₁ ts

end

mutual

/-- `GcCtx::collect_white`: a White, non-buffered node is recoloured Black,
its children are visited, and then it is freed. -/
def GcCtx.collectWhite : Nat → GcCtx → NodeId → Option GcCtx
  | 0, _, _ => none
  | fuel+1, σ, s =>
    match σ.node s with
    | none => some σ
    | some n =>
      if n.colour = Colour.White ∧ n.buffered = false then do
        let σ₁ := σ.modifyNode s (fun m => { m with colour := Colour.Black })
        let σ₂ ← GcCtx.collectWhiteKids fuel σ₁ n.children
        some (σ₂.systemFree s)
      else some σ

/-- The child loop of `collect_white`. -/
def GcCtx.collectWhiteKids : Nat → GcCtx → List NodeId → Option GcCtx
  | 0, _, _ => none
  | _+1, σ, [] => some σ
  | fuel+1, σ, t :: ts => do
    let σ₁ ← GcCtx.collectWhite fuel σ t
    GcCtx.collectWhiteKids fuel σ₁ ts

end

/-- The body of `GcCtx::mark_roots`, iterating over the snapshot taken by
`self.roots.clone()`. -/
def GcCtx.markRootsLoop : Nat → GcCtx → List NodeId → Option GcCtx
  | _, σ, [] => some σ
  | fuel, σ, s :: rest =>
    match σ.node s with
    | none => GcCtx.markRootsLoop fuel σ rest
    | some n =>
      if n.colour = Colour.Purple ∧ n.count > 0 then do
        let σ₁ ← GcCtx.markGray fuel σ s
        GcCtx.markRootsLoop fuel σ₁ rest
      else
        let σ₁ := σ.modifyNode s (fun m => { m with buffered := false })
        let σ₂ := { σ₁ with roots := σ₁.roots.filter (fun x => decide (x ≠ s)) }
        let σ₃ := if n.colour = Colour.Black ∧ n.count = 0 then σ₂.systemFree s else σ₂
        GcCtx.markRootsLoop fuel σ₃ rest

/-- `GcCtx::mark_roots`. -/
def GcCtx.markRoots (fuel : Nat) (σ : GcCtx) : Option GcCtx :=
  GcCtx.markRootsLoop fuel σ σ.roots

/-- The body of `GcCtx::scan_roots`. -/
def GcCtx.scanRootsLoop : Nat → GcCtx → List NodeId → Option GcCtx
  | _, σ, [] => some σ
  | fuel, σ, s :: rest => do
    let σ₁ ← GcCtx.scan fuel σ s
    GcCtx.scanRootsLoop fuel σ₁ rest

/-- `GcCtx::scan_roots`. -/
def GcCtx.scanRoots (fuel : Nat) (σ : GcCtx) : Option GcCtx :=
  GcCtx.scanRootsLoop fuel σ σ.roots

/-- The entry of `GcCtx::collect_roots`: take the snapshot
(`self.roots.clone()`) and clear the live buffer (`self.roots.clear()`).
The second component is the state of the context at the moment just after
the clear, before any snapshot element has been processed. -/
def GcCtx.collectRootsEnter (σ : GcCtx) : List NodeId × GcCtx :=
  (σ.roots, { σ with roots := [] })

/-- The body of `GcCtx::collect_roots`: for each snapshot element, clear
`buffered` and run `collect_white`. -/
def GcCtx.collectRootsLoop : Nat → GcCtx → List NodeId → Option GcCtx
  | _, σ, [] => some σ
  | fuel, σ, s :: rest => do
    let σ₁ := σ.modifyNode s (fun m => { m with buffered := false })
    let σ₂ ← GcCtx.collectWhite fuel σ₁ s
    GcCtx.collectRootsLoop fuel σ₂ rest

/-- `GcCtx::collect_roots`. -/
def GcCtx.collectRoots (fuel : Nat) (σ : GcCtx) : Option GcCtx :=
  GcCtx.collectRootsLoop fuel (σ.collectRootsEnter).2 (σ.collectRootsEnter).1

/-- `GcCtx::collect_cycles`: the three sequential passes. -/
def GcCtx.collectCycles (fuel : Nat) (σ : GcCtx) : Option GcCtx := do
  let σ₁ ← GcCtx.markRoots fuel σ
  let σ₂ ← GcCtx.scanRoots fuel σ₁
  GcCtx.collectRoots fuel σ₂

/-- `impl Drop for Gc`: decrement, then collect cycles when the policy
flag is set. -/
def GcCtx.gcDrop (fuel : Nat) (σ : GcCtx) (s : NodeId) : Option GcCtx := do
  let σ₁ ← GcCtx.decrement fuel σ s
  if σ₁.autoCollectCyclesOnDecrement then GcCtx.collectCycles fuel σ₁ else some σ₁

/-- `impl Clone for Gc`: increment the node. -/
def GcCtx.gcClone (σ : GcCtx) (s : NodeId) : GcCtx :=
  σ.increment s

/-- `Gc::downgrade`: allocate a `WeakNode` whose `node` field is the
handle's node and return a weak handle over it.  (Faithful to the source:
no entry is pushed onto `node.weak_nodes`.) -/
def GcCtx.downgrade (σ : GcCtx) (s : NodeId) : NodeId × GcCtx :=
  (σ.nextId,
   { σ with
       weaks := σ.weaks ++ [(σ.nextId, WeakNode.mk (some s))]
       nextId := σ.nextId + 1 })

/-- `GcWeak::upgrade`: map over the `WeakNode`'s optional target,
incrementing it and producing a fresh strong handle. -/
def GcCtx.upgrade (σ : GcCtx) (w : NodeId) : Option NodeId × GcCtx :=
  match σ.weak w with
  | none => (none, σ)
  | some wn =>
    match wn.node with
    | none => (none, σ)
    | some s => (some s, σ.increment s)

/-- `impl Drop for GcWeak` followed by `impl Drop for WeakNode`: deregister
the `WeakNode` from its still-live target's `weak_nodes`, then free the
`WeakNode` record. -/
def GcCtx.weakDrop (σ : GcCtx) (w : NodeId) : GcCtx :=
  match σ.weak w with
  | none => σ
  | some wn =>
    let σ₁ :=
      match wn.node with
      | some s =>
        σ.modifyNode s
          (fun n => { n with weakNodes := n.weakNodes.filter (fun x => decide (x ≠ w)) })
      | none => σ
    { σ₁ with weaks := removeA σ₁.weaks w }

/-- The outcome of `<Gc as Deref>::deref`: either a borrow of the payload,
or a fatal abort (`panic!` in the source -- no error value is returned). -/
inductive DerefResult where
  | ok (v : Nat)
  | fatal
deriving DecidableEq, Repr

/-- `Box<Any>::downcast_ref::<A>`: succeeds exactly when the stored
`TypeId` equals the requested one. -/
def downcastRef (t : Nat) (b : AnyBox) : Option Nat :=
  if b.ty = t then some b.val else none

/-- `impl Deref for Gc`: downcast the payload at the handle's type; a
mismatch is a fatal abort. -/
def GcCtx.derefGc (σ : GcCtx) (s : NodeId) (t : Nat) : DerefResult :=
  match σ.node s with
  | none => DerefResult.fatal
  | some n =>
    match downcastRef t n.data with
    | some v => DerefResult.ok v
    | none => DerefResult.fatal

/-- `Gc::add_child`: push the child id unless it is already present
(pointer-equality `contains` check in the source). -/
def GcCtx.addChild (σ : GcCtx) (p c : NodeId) : GcCtx :=
  σ.modifyNode p
    (fun n => if c ∈ n.children then n else { n with children := n.children ++ [c] })

/-- `Gc::remove_child`: retain every child not pointer-equal to the
removed one. -/
def GcCtx.removeChild (σ : GcCtx) (p c : NodeId) : GcCtx :=
  σ.modifyNode p
    (fun n => { n with children := n.children.filter (fun x => decide (x ≠ c)) })

mutual

/-- Written from the spec's words, for comparison with the source's
`GcCtx.collectWhite`: "frees any White, non-buffered Node, recursing into
children first, and restoring colour = Black on the node immediately
before freeing".  The source instead recolours Black before recursing. -/
def GcCtx.collectWhiteSpecOrder : Nat → GcCtx → NodeId → Option GcCtx
  | 0, _, _ => none
  | fuel+1, σ, s =>
    match σ.node s with
    | none => some σ
    | some n =>
      if n.colour = Colour.White ∧ n.buffered = false then do
        let σ₁ ← GcCtx.collectWhiteSpecOrderKids fuel σ n.children
        let σ₂ := σ₁.modifyNode s (fun m => { m with colour := Colour.Black })
        some (σ₂.systemFree s)
      else some σ

/-- The child loop of `GcCtx.collectWhiteSpecOrder`. -/
def GcCtx.collectWhiteSpecOrderKids : Nat → GcCtx → List NodeId → Option GcCtx
  | 0, _, _ => none
  | _+1, σ, [] => some σ
  | fuel+1, σ, t :: ts => do
    let σ₁ ← GcCtx.collectWhiteSpecOrder fuel σ t
    GcCtx.collectWhiteSpecOrderKids fuel σ₁ ts

end

/-- The root-buffer well-formedness invariant: the buffer holds each node
at most once, every buffered node is live with its `buffered` flag set,
every heap node with the flag set is in the buffer (`buffered` mirrors
presence), and every allocated id is below the allocation counter. -/
def WF (σ : GcCtx) : Prop :=
  σ.roots.Nodup ∧
  (∀ i ∈ σ.roots, (σ.node i).map Node.buffered = some true) ∧
  (∀ p ∈ σ.heap, p.2.buffered = true → p.1 ∈ σ.roots) ∧
  (∀ p ∈ σ.heap, p.1 < σ.nextId)

instance : DecidablePred WF := fun σ => by
  unfold WF; infer_instance

/-- One public operation of the library, relating the context state before
to the state after.  Fuelled operations appear through a completed run. -/
inductive Step : GcCtx → GcCtx → Prop where
  | newGc (σ : GcCtx) (v : AnyBox) : Step σ (σ.newGc v).2
  | gcClone (σ : GcCtx) (s : NodeId) : Step σ (σ.gcClone s)
  | gcDrop (fuel : Nat) (σ σ' : GcCtx) (s : NodeId) :
      GcCtx.gcDrop fuel σ s = some σ' → Step σ σ'
  | collectCycles (fuel : Nat) (σ σ' : GcCtx) :
      GcCtx.collectCycles fuel σ = some σ' → Step σ σ'
  | derefGc (σ : GcCtx) : Step σ σ
  | downgrade (σ : GcCtx) (s : NodeId) : Step σ (σ.downgrade s).2
  | upgrade (σ : GcCtx) (w : NodeId) : Step σ (σ.upgrade w).2
  | weakDrop (σ : GcCtx) (w : NodeId) : Step σ (σ.weakDrop w)
  | addChild (σ : GcCtx) (p c : NodeId) : Step σ (σ.addChild p c)
  | removeChild (σ : GcCtx) (p c : NodeId) : Step σ (σ.removeChild p c)

/-- Frame facts for the marking walkers (`mark_gray`, `scan`,
`scan_black`): they touch only node colours and counts. -/
structure GFrame (σ σ' : GcCtx) : Prop where
  roots_eq : σ'.roots = σ.roots
  auto_eq : σ'.autoCollectCyclesOnDecrement = σ.autoCollectCyclesOnDecrement
  next_eq : σ'.nextId = σ.nextId
  freed_eq : σ'.freedLog = σ.freedLog
  weaks_eq : σ'.weaks = σ.weaks
  look : ∀ i n, σ.node i = some n → ∃ n', σ'.node i = some n' ∧
      n'.buffered = n.buffered ∧ n'.children = n.children ∧
      n'.weakNodes = n.weakNodes ∧ n'.data = n.data
  mem : ∀ q ∈ σ'.heap, ∃ p ∈ σ.heap, p.1 = q.1 ∧ q.2.buffered = p.2.buffered
  none_stable : ∀ i, σ.node i = none → σ'.node i = none

/-- Frame facts for `collect_white`: colours may flip to Black, nodes may
be freed (and logged), but no count, flag, edge list or the root buffer
changes for a surviving node, and only unbuffered nodes are freed. -/
structure CWFrame (σ σ' : GcCtx) : Prop where
  roots_eq : σ'.roots = σ.roots
  auto_eq : σ'.autoCollectCyclesOnDecrement = σ.autoCollectCyclesOnDecrement
  next_eq : σ'.nextId = σ.nextId
  freed_ext : ∃ l, σ'.freedLog = σ.freedLog ++ l ∧
      (∀ i ∈ l, σ.node i ≠ none) ∧ (∀ i, σ.node i ≠ none → σ'.node i = none → i ∈ l)
  look : ∀ i n', σ'.node i = some n' → ∃ n, σ.node i = some n ∧
      n'.buffered = n.buffered ∧ n'.children = n.children ∧ n'.count = n.count ∧
      (n'.colour = n.colour ∨ n'.colour = Colour.Black)
  none_stable : ∀ i, σ.node i = none → σ'.node i = none
  freed_unbuffered : ∀ i n, σ.node i = some n → σ'.node i = none → n.buffered = false
  freed_white : ∀ i n, σ.node i = some n → σ'.node i = none → n.colour = Colour.White
  mem : ∀ q ∈ σ'.heap, ∃ p ∈ σ.heap, p.1 = q.1 ∧ q.2.buffered = p.2.buffered

/-- Frame facts for the `decrement`/`release` cascade: the policy flag and
allocation counter are untouched, and entries are only ever appended to the
root buffer, never removed. -/
structure DFrame (σ σ' : GcCtx) : Prop where
  auto_eq : σ'.autoCollectCyclesOnDecrement = σ.autoCollectCyclesOnDecrement
  next_eq : σ'.nextId = σ.nextId
  roots_ext : ∃ extra, σ'.roots = σ.roots ++ extra

/-- The context reached from a fresh context by `new_gc` (payload type tag
5, value 42) followed by `downgrade` on the returned handle. -/
def gcWeakDemo : GcCtx :=
  { roots := []
    autoCollectCyclesOnDecrement := true
    heap := [(0, Node.mk 1 Colour.Black false [] [] (AnyBox.mk 5 42))]
    weaks := [(1, WeakNode.mk (some 0))]
    nextId := 2
    freedLog := [] }

/-- `gcWeakDemo` after the strong handle is dropped: node 0 is freed, yet
the `WeakNode` still targets it. -/
def gcWeakDemoFreed : GcCtx :=
  { roots := []
    autoCollectCyclesOnDecrement := true
    heap := []
    weaks := [(1, WeakNode.mk (some 0))]
    nextId := 2
    freedLog := [0] }

/-- A reachable heap in which the garbage cycle {2, 3} holds an edge into
the externally retained cycle {0, 1}: node 0 holds one external strong
handle (count 3 = handle + edge from 1 + edge from 2), and node 3's last
external handle was just dropped (purple, buffered, root).  Reached by
allocating four nodes, wiring 0↔1, 2↔3 and 2→0, and dropping the handles
of 1, 2 and 3 (auto-collect runs after each drop). -/
def rescueCexPre : GcCtx :=
  { roots := [3]
    autoCollectCyclesOnDecrement := true
    heap := [(0, Node.mk 3 Colour.Black false [1] [] (AnyBox.mk 0 0)),
             (1, Node.mk 1 Colour.Black false [0] [] (AnyBox.mk 0 0)),
             (2, Node.mk 1 Colour.Black false [3, 0] [] (AnyBox.mk 0 0)),
             (3, Node.mk 1 Colour.Purple true [2] [] (AnyBox.mk 0 0))]
    weaks := []
    nextId := 4
    freedLog := [] }

/-- A two-node cycle 0 → 1 → 0 in which node 0 holds `eA` external strong
handles and node 1 holds `eB`; node 0 was just reported as a possible root
(purple, buffered, in the buffer). -/
def twoCycle (eA eB : Nat) : GcCtx :=
  { roots := [0]
    autoCollectCyclesOnDecrement := true
    heap := [(0, Node.mk (1 + (eA : Int)) Colour.Purple true [1] [] (AnyBox.mk 0 0)),
             (1, Node.mk (1 + (eB : Int)) Colour.Black false [0] [] (AnyBox.mk 0 0))]
    weaks := []
    nextId := 2
    freedLog := [] }

/-- A two-node cycle of White, unbuffered, count-zero nodes, as
`collect_white` meets it when a dead cycle reaches pass three. -/
def whiteCycle : GcCtx :=
  { roots := []
    autoCollectCyclesOnDecrement := true
    heap := [(0, Node.mk 0 Colour.White false [1] [] (AnyBox.mk 0 0)),
             (1, Node.mk 0 Colour.White false [0] [] (AnyBox.mk 0 0))]
    weaks := []
    nextId := 2
    freedLog := [] }

/-- A single self-edge-free purple root holding one external handle, e.g.
reached by cloning a fresh handle and dropping the clone with auto-collect
momentarily off.  Passes one and two of `collect_cycles` leave it Black,
buffered and in the buffer; pass three then clears the buffer before it
clears the flag. -/
def purpleRootDemo : GcCtx :=
  { roots := [0]
    autoCollectCyclesOnDecrement := true
    heap := [(0, Node.mk 1 Colour.Purple true [] [] (AnyBox.mk 0 0))]
    weaks := []
    nextId := 1
    freedLog := [] }

/-- The single child edge of member `i` of a simple `n`-cycle:
`0 → 1 → ... → (n-1) → 0`. -/
def cycChildren (n i : Nat) : List NodeId := [(i + 1) % n]

/-- The heap of a simple `n`-cycle with pointwise colour, count and
buffered-flag functions. -/
def cycHeap (n : Nat) (col : Nat → Colour) (cnt : Nat → Int) (buf : Nat → Bool) :
    List (NodeId × Node) :=
  (List.range n).map
    (fun i => (i, Node.mk (cnt i) (col i) (buf i) (cycChildren n i) [] (AnyBox.mk 0 0)))

/-- A context whose whole heap is a simple `n`-cycle. -/
def cycSt (n : Nat) (col : Nat → Colour) (cnt : Nat → Int) (buf : Nat → Bool)
    (roots : List NodeId) : GcCtx :=
  { roots := roots
    autoCollectCyclesOnDecrement := true
    heap := cycHeap n col cnt buf
    weaks := []
    nextId := n
    freedLog := [] }

/-- Member 0 is the buffered purple root. -/
def cycBuf : Nat → Bool := fun i => decide (i = 0)

/-- The simple `n`-cycle in which member `i` holds `e i` external strong
handles and member 0 was just reported as a possible root (purple,
buffered, in the buffer): count `1 + e i`, the cycle edge included. -/
def nCycle (n : Nat) (e : Nat → Nat) : GcCtx :=
  cycSt n (fun i => if i = 0 then Colour.Purple else Colour.Black)
    (fun i => 1 + (e i : Int)) cycBuf [0]

/-- Colours midway through `mark_gray`'s walk: members below `k` already
Gray, the rest untouched. -/
def mgCol (k : Nat) : Nat → Colour :=
  fun i => if i < k then Colour.Gray else if i = 0 then Colour.Purple else Colour.Black

/-- Counts midway through `mark_gray`'s walk: members `1..k` already
trial-decremented. -/
def mgCnt (e : Nat → Nat) (k : Nat) : Nat → Int :=
  fun i => if 1 ≤ i ∧ i ≤ k then (e i : Int) else 1 + (e i : Int)

/-- All members Gray (end of the marking walk). -/
def grayCol : Nat → Colour := fun _ => Colour.Gray

/-- All counts trial-decremented to the bare external counts. -/
def eCnt (e : Nat → Nat) : Nat → Int := fun i => (e i : Int)

/-- Colours during `scan_black`'s walk over the still-Gray arc, entered at
member `m` (the first externally referenced member): members below `m`
White from the scan phase, members `m..p-1` already Black, the rest Gray. -/
def sbGrayCol (m p : Nat) : Nat → Colour :=
  fun i => if i < m then Colour.White else if i < p then Colour.Black else Colour.Gray

/-- Counts during that walk: members `m+1..p` re-incremented. -/
def sbGrayCnt (e : Nat → Nat) (m p : Nat) : Nat → Int :=
  fun i => if m + 1 ≤ i ∧ i ≤ p then (e i : Int) + 1 else (e i : Int)

/-- Colours during `scan_black`'s wrap over the White prefix: members
below `q` re-Blackened, members `q..m-1` still White, the rest Black. -/
def sbWhiteCol (m q : Nat) : Nat → Colour :=
  fun i => if i < q then Colour.Black else if i < m then Colour.White else Colour.Black

/-- Counts during the wrap: members up to `q` and beyond `m` already
re-incremented. -/
def sbWhiteCnt (e : Nat → Nat) (m q : Nat) : Nat → Int :=
  fun i => if i ≤ q ∨ m + 1 ≤ i then (e i : Int) + 1 else (e i : Int)

/-- All members Black. -/
def blackCol : Nat → Colour := fun _ => Colour.Black

/-- All counts restored. -/
def doneCnt (e : Nat → Nat) : Nat → Int := fun i => (e i : Int) + 1

/-- Colours during the scan phase's whitening walk: members below `j`
White, the rest Gray. -/
def scanWCol (j : Nat) : Nat → Colour :=
  fun i => if i < j then Colour.White else Colour.Gray

/-- No member buffered. -/
def noBuf : Nat → Bool := fun _ => false

/-! ## Association-list lemmas -/

theorem lookupA_updateA {α : Type} (f : α → α) (l : List (NodeId × α)) (i j : NodeId) :
    lookupA (updateA f l i) j = if j = i then (lookupA l j).map f else lookupA l j := by
  induction l with
  | nil => simp [lookupA, updateA]
  | cons p rest ih =>
    obtain ⟨k, v⟩ := p
    by_cases hki : k = i
    · subst hki
      by_cases hkj : k = j
      · subst hkj
        simp [lookupA, updateA]
      · have hjk : ¬ j = k := fun h => hkj h.symm
        simp [lookupA, updateA, hkj, hjk, ih]
    · by_cases hkj : k = j
      · subst hkj
        simp [lookupA, updateA, hki, fun h => hki (h : k = i)]
      · simp [lookupA, updateA, hki, hkj, ih]

theorem lookupA_removeA {α : Type} (l : List (NodeId × α)) (i j : NodeId) :
    lookupA (removeA l i) j = if j = i then none else lookupA l j := by
  induction l with
  | nil => simp [lookupA, removeA]
  | cons p rest ih =>
    obtain ⟨k, v⟩ := p
    by_cases hki : k = i
    · subst hki
      by_cases hkj : k = j
      · subst hkj
        simp [removeA, ih]
      · have hjk : ¬ j = k := fun h => hkj h.symm
        simp [removeA, lookupA, hkj, hjk, ih]
    · by_cases hkj : k = j
      · subst hkj
        have hji : ¬ k = i := hki
        simp [removeA, lookupA, hki, hji]
      · simp [removeA, lookupA, hki, hkj, ih]

theorem mem_updateA {α : Type} (f : α → α) (l : List (NodeId × α)) (i : NodeId)
    (q : NodeId × α) (hq : q ∈ updateA f l i) :
    ∃ p ∈ l, p.1 = q.1 ∧ ((¬ q.1 = i ∧ q.2 = p.2) ∨ (q.1 = i ∧ q.2 = f p.2)) := by
  induction l with
  | nil => simp [updateA] at hq
  | cons p rest ih =>
    obtain ⟨k, v⟩ := p
    by_cases hki : k = i
    · subst hki
      simp only [updateA, if_pos rfl] at hq
      rcases List.mem_cons.mp hq with h | h
      · exact ⟨(k, v), List.mem_cons_self _ _, by rw [h],
          Or.inr ⟨by rw [h], by rw [h]⟩⟩
      · obtain ⟨r, hr, hk, hv⟩ := ih h
        exact ⟨r, List.mem_cons_of_mem _ hr, hk, hv⟩
    · simp only [updateA, if_neg hki] at hq
      rcases List.mem_cons.mp hq with h | h
      · refine ⟨(k, v), List.mem_cons_self _ _, by rw [h],
          Or.inl ⟨?_, by rw [h]⟩⟩
        rw [h]
        exact hki
      · obtain ⟨r, hr, hk, hv⟩ := ih h
        exact ⟨r, List.mem_cons_of_mem _ hr, hk, hv⟩

theorem mem_removeA {α : Type} (l : List (NodeId × α)) (i : NodeId)
    (q : NodeId × α) (hq : q ∈ removeA l i) : q ∈ l := by
  induction l with
  | nil => simp [removeA] at hq
  | cons p rest ih =>
    obtain ⟨k, v⟩ := p
    by_cases hki : k = i
    · subst hki
      simp only [removeA, if_pos rfl] at hq
      exact List.mem_cons_of_mem _ (ih hq)
    · simp only [removeA, if_neg hki] at hq
      rcases List.mem_cons.mp hq with h | h
      · exact h ▸ List.mem_cons_self _ _
      · exact List.mem_cons_of_mem _ (ih h)

theorem lookupA_append {α : Type} (l l' : List (NodeId × α)) (j : NodeId) :
    lookupA (l ++ l') j =
      match lookupA l j with
      | some v => some v
      | none => lookupA l' j := by
  induction l with
  | nil => simp [lookupA]
  | cons p rest ih =>
    obtain ⟨k, v⟩ := p
    by_cases hkj : k = j <;> simp [lookupA, hkj, ih]

theorem updateA_updateA {α : Type} (f g : α → α) (l : List (NodeId × α)) (i : NodeId) :
    updateA g (updateA f l i) i = updateA (fun a => g (f a)) l i := by
  induction l with
  | nil => rfl
  | cons p rest ih =>
    obtain ⟨k, v⟩ := p
    by_cases h : k = i <;> simp [updateA, h, ih]

theorem updateA_congr {α : Type} (f g : α → α) (l : List (NodeId × α)) (i : NodeId)
    (h : ∀ a, f a = g a) : updateA f l i = updateA g l i := by
  induction l with
  | nil => rfl
  | cons p rest ih =>
    obtain ⟨k, v⟩ := p
    by_cases hp : k = i <;> simp [updateA, hp, ih, h]

theorem GcCtx.node_modifyNode (σ : GcCtx) (k : NodeId) (f : Node → Node) (j : NodeId) :
    (σ.modifyNode k f).node j = if j = k then (σ.node j).map f else σ.node j :=
  lookupA_updateA f σ.heap k j

theorem GcCtx.modifyNode_modifyNode (σ : GcCtx) (i : NodeId) (f g : Node → Node) :
    (σ.modifyNode i f).modifyNode i g = σ.modifyNode i (fun n => g (f n)) := by
  simp [GcCtx.modifyNode, updateA_updateA]

theorem GcCtx.modifyNode_congr (σ : GcCtx) (i : NodeId) (f g : Node → Node)
    (h : ∀ n, f n = g n) : σ.modifyNode i f = σ.modifyNode i g := by
  simp [GcCtx.modifyNode, updateA_congr f g σ.heap i h]

/-! ## C10 -/

/-- C10: when the context's root buffer is empty, `collect_cycles` is a
no-op -- the returned state is the input state itself, so no node is freed
and no count, colour, buffered flag or child list changes, and the root
buffer stays empty. -/
theorem collectCycles_empty_roots_noop (fuel : Nat) (σ : GcCtx) (h : σ.roots = []) :
    GcCtx.collectCycles fuel σ = some σ := by
  have hσ : { σ with roots := ([] : List NodeId) } = σ := by
    cases σ
    simp_all
  simp [GcCtx.collectCycles, GcCtx.markRoots, GcCtx.scanRoots, GcCtx.collectRoots,
        GcCtx.collectRootsEnter, h, hσ, GcCtx.markRootsLoop, GcCtx.scanRootsLoop,
        GcCtx.collectRootsLoop]

/-- Witness for C10 at a concrete input: the fresh context. -/
theorem collectCycles_empty_roots_noop_w :
    GcCtx.collectCycles 0 GcCtx.new = some GcCtx.new :=
  collectCycles_empty_roots_noop 0 GcCtx.new rfl

/-! ## C8 -/

/-- C8: `deref` returns a borrow of the stored payload at the requested
type exactly when that type equals the allocated one, and aborts the
program on a mismatch.  `DerefResult` has only the borrow and the fatal
abort as outcomes: no error value is returned across the API. -/
theorem derefGc_matches_or_aborts (σ : GcCtx) (s : NodeId) (n : Node) (t : Nat)
    (h : σ.node s = some n) :
    (n.data.ty = t → σ.derefGc s t = DerefResult.ok n.data.val) ∧
    (n.data.ty ≠ t → σ.derefGc s t = DerefResult.fatal) := by
  constructor <;> intro ht <;> simp [GcCtx.derefGc, h, downcastRef, ht]

/-- Witness for C8: payload stored with tag 5 dereferences at 5 and aborts
at 7. -/
theorem derefGc_matches_or_aborts_w :
    (GcCtx.new.newGc (AnyBox.mk 5 42)).2.derefGc 0 5 = DerefResult.ok 42 ∧
    (GcCtx.new.newGc (AnyBox.mk 5 42)).2.derefGc 0 7 = DerefResult.fatal :=
  ⟨(derefGc_matches_or_aborts (GcCtx.new.newGc (AnyBox.mk 5 42)).2 0
      (Node.mk 1 Colour.Black false [] [] (AnyBox.mk 5 42)) 5 rfl).1 rfl,
   (derefGc_matches_or_aborts (GcCtx.new.newGc (AnyBox.mk 5 42)).2 0
      (Node.mk 1 Colour.Black false [] [] (AnyBox.mk 5 42)) 7 rfl).2 (by decide)⟩

/-! ## C1 -/

/-- C1 (evaluation at the failing input): because `downgrade` never
registers its `WeakNode` in `node.weak_nodes`, the node's destructor nulls
nothing when the node is reclaimed, and `upgrade` on the weak handle
still returns a handle (over the freed id 0) instead of the empty result
the claim requires.  The run: fresh context, `new_gc`, `downgrade`, drop
of the only strong handle (count hits 0, `release` frees the node,
auto-collect then runs on an empty buffer). -/
theorem upgrade_after_reclaim_returns_some :
    ((GcCtx.new.newGc (AnyBox.mk 5 42)).2.downgrade 0).2 = gcWeakDemo ∧
    GcCtx.gcDrop 9 gcWeakDemo 0 = some gcWeakDemoFreed ∧
    gcWeakDemoFreed.node 0 = none ∧
    gcWeakDemoFreed.freedLog = [0] ∧
    (gcWeakDemoFreed.upgrade 1).1 = some 0 :=
  ⟨rfl, rfl, rfl, rfl, rfl⟩

/-! ## C2 -/

/-- C2 (evaluation at the failing input): `downgrade` allocates a fresh
`WeakNode` whose target is the handle's node and returns a weak handle
over it, but contrary to the claim it never registers the `WeakNode` in
the node's `weak_nodes` set -- the set stays empty (the source contains no
push onto `weak_nodes` at all). -/
theorem downgrade_skips_registration :
    (GcCtx.new.newGc (AnyBox.mk 5 42)).2.downgrade 0 = (1, gcWeakDemo) ∧
    gcWeakDemo.weak 1 = some (WeakNode.mk (some 0)) ∧
    (gcWeakDemo.node 0).map Node.weakNodes = some [] :=
  ⟨rfl, rfl, rfl⟩

/-! ## C7 -/

/-- C7: `add_child` is idempotent on pointer equality -- adding the same
child twice equals adding it once, and starting from a duplicate-free
child list the child ends up with exactly one entry, so collection sees a
single edge. -/
theorem addChild_idempotent (σ : GcCtx) (p c : NodeId) :
    (σ.addChild p c).addChild p c = σ.addChild p c ∧
    (∀ n, σ.node p = some n → n.children.Nodup →
      ∃ n', (σ.addChild p c).node p = some n' ∧ n'.children.Nodup ∧
        c ∈ n'.children ∧ n'.children.count c = 1) := by
  constructor
  · show ((σ.modifyNode p _).modifyNode p _) = σ.modifyNode p _
    rw [GcCtx.modifyNode_modifyNode]
    refine GcCtx.modifyNode_congr σ p _ _ (fun n => ?_)
    by_cases hc : c ∈ n.children
    · simp [hc]
    · simp [hc]
  · intro n hn hd
    have h1 : (σ.addChild p c).node p =
        (σ.node p).map
          (fun n => if c ∈ n.children then n else { n with children := n.children ++ [c] }) := by
      rw [GcCtx.addChild, GcCtx.node_modifyNode, if_pos rfl]
    rw [hn] at h1
    by_cases hc : c ∈ n.children
    · refine ⟨n, by simp [h1, hc], hd, hc, List.count_eq_one_of_mem hd hc⟩
    · refine ⟨{ n with children := n.children ++ [c] }, by simp [h1, hc], ?_, ?_, ?_⟩
      · simp only [List.nodup_append, List.nodup_cons, List.not_mem_nil, not_false_iff,
          List.nodup_nil, and_true, true_and]
        refine ⟨hd, fun a ha hb => ?_⟩
        simp only [List.mem_singleton] at hb
        exact hc (hb ▸ ha)
      · simp
      · rw [List.count_append]
        simp [List.count_eq_zero_of_not_mem hc]

/-- Witness for C7: two fresh nodes, edge 0 → 1 declared twice. -/
theorem addChild_idempotent_w :
    ∃ n', (((GcCtx.new.newGc (AnyBox.mk 0 0)).2.newGc (AnyBox.mk 1 1)).2.addChild 0 1).node 0
        = some n' ∧ n'.children.Nodup ∧ 1 ∈ n'.children ∧ n'.children.count 1 = 1 :=
  (addChild_idempotent ((GcCtx.new.newGc (AnyBox.mk 0 0)).2.newGc (AnyBox.mk 1 1)).2 0 1).2
    (Node.mk 1 Colour.Black false [] [] (AnyBox.mk 0 0)) rfl List.nodup_nil

/-! ## Field lemmas for the free path -/

theorem nullWeaks_fields (ws : List NodeId) (σ : GcCtx) :
    (nullWeaks σ ws).heap = σ.heap ∧ (nullWeaks σ ws).roots = σ.roots ∧
    (nullWeaks σ ws).autoCollectCyclesOnDecrement = σ.autoCollectCyclesOnDecrement ∧
    (nullWeaks σ ws).nextId = σ.nextId ∧ (nullWeaks σ ws).freedLog = σ.freedLog := by
  induction ws generalizing σ with
  | nil => exact ⟨rfl, rfl, rfl, rfl, rfl⟩
  | cons w rest ih => exact ih _

theorem GcCtx.systemFree_none (σ : GcCtx) (s : NodeId) (h : σ.node s = none) :
    σ.systemFree s = σ := by
  simp [GcCtx.systemFree, h]

theorem GcCtx.systemFree_roots (σ : GcCtx) (s : NodeId) :
    (σ.systemFree s).roots = σ.roots := by
  cases h : σ.node s with
  | none => simp [GcCtx.systemFree, h]
  | some n => simp [GcCtx.systemFree, h, (nullWeaks_fields n.weakNodes σ).2.1]

theorem GcCtx.systemFree_auto (σ : GcCtx) (s : NodeId) :
    (σ.systemFree s).autoCollectCyclesOnDecrement = σ.autoCollectCyclesOnDecrement := by
  cases h : σ.node s with
  | none => simp [GcCtx.systemFree, h]
  | some n => simp [GcCtx.systemFree, h, (nullWeaks_fields n.weakNodes σ).2.2.1]

theorem GcCtx.systemFree_nextId (σ : GcCtx) (s : NodeId) :
    (σ.systemFree s).nextId = σ.nextId := by
  cases h : σ.node s with
  | none => simp [GcCtx.systemFree, h]
  | some n => simp [GcCtx.systemFree, h, (nullWeaks_fields n.weakNodes σ).2.2.2.1]

theorem GcCtx.systemFree_heap_some (σ : GcCtx) (s : NodeId) (n : Node)
    (h : σ.node s = some n) : (σ.systemFree s).heap = removeA σ.heap s := by
  simp [GcCtx.systemFree, h, (nullWeaks_fields n.weakNodes σ).1]

theorem GcCtx.systemFree_freedLog_some (σ : GcCtx) (s : NodeId) (n : Node)
    (h : σ.node s = some n) : (σ.systemFree s).freedLog = σ.freedLog ++ [s] := by
  simp [GcCtx.systemFree, h, (nullWeaks_fields n.weakNodes σ).2.2.2.2]

theorem GcCtx.systemFree_node_some (σ : GcCtx) (s : NodeId) (n : Node)
    (h : σ.node s = some n) (j : NodeId) :
    (σ.systemFree s).node j = if j = s then none else σ.node j := by
  show lookupA (σ.systemFree s).heap j = _
  rw [GcCtx.systemFree_heap_some σ s n h, lookupA_removeA]
  rfl

/-! ## CWFrame algebra -/

theorem cwframe_refl (σ : GcCtx) : CWFrame σ σ where
  roots_eq := rfl
  auto_eq := rfl
  next_eq := rfl
  freed_ext := ⟨[], by simp, by simp, fun i hi hnone => absurd hnone hi⟩
  look := fun i n' h => ⟨n', h, rfl, rfl, rfl, Or.inl rfl⟩
  none_stable := fun _ h => h
  freed_unbuffered := fun i n h h' => absurd h' (by simp [h])
  freed_white := fun i n h h' => absurd h' (by simp [h])
  mem := fun q hq => ⟨q, hq, rfl, rfl⟩

theorem cwframe_trans {σ₁ σ₂ σ₃ : GcCtx} (a : CWFrame σ₁ σ₂) (b : CWFrame σ₂ σ₃) :
    CWFrame σ₁ σ₃ where
  roots_eq := b.roots_eq.trans a.roots_eq
  auto_eq := b.auto_eq.trans a.auto_eq
  next_eq := b.next_eq.trans a.next_eq
  freed_ext := by
    obtain ⟨l₁, h₁, m₁, c₁⟩ := a.freed_ext
    obtain ⟨l₂, h₂, m₂, c₂⟩ := b.freed_ext
    refine ⟨l₁ ++ l₂, by rw [h₂, h₁, List.append_assoc], ?_, ?_⟩
    · intro i hi
      rcases List.mem_append.mp hi with h | h
      · exact m₁ i h
      · exact fun hnone => m₂ i h (a.none_stable i hnone)
    · intro i hne h3
      by_cases h2 : σ₂.node i = none
      · exact List.mem_append.mpr (Or.inl (c₁ i hne h2))
      · exact List.mem_append.mpr (Or.inr (c₂ i h2 h3))
  look := by
    intro i n₃ h3
    obtain ⟨n₂, h2, hb, hc, hcnt, hcol⟩ := b.look i n₃ h3
    obtain ⟨n₁, h1, hb', hc', hcnt', hcol'⟩ := a.look i n₂ h2
    refine ⟨n₁, h1, hb.trans hb', hc.trans hc', hcnt.trans hcnt', ?_⟩
    rcases hcol with h | h
    · rcases hcol' with h' | h'
      · exact Or.inl (h.trans h')
      · exact Or.inr (h.trans h')
    · exact Or.inr h
  none_stable := fun i h => b.none_stable i (a.none_stable i h)
  freed_unbuffered := by
    intro i n h1 h3
    by_cases h2 : σ₂.node i = none
    · exact a.freed_unbuffered i n h1 h2
    · obtain ⟨n₂, hn2⟩ := Option.ne_none_iff_exists'.mp h2
      have hfu := b.freed_unbuffered i n₂ hn2 h3
      obtain ⟨n₁, h1', hb, _, _, _⟩ := a.look i n₂ hn2
      rw [h1] at h1'
      cases h1'
      rw [← hb]
      exact hfu
  freed_white := by
    intro i n h1 h3
    by_cases h2 : σ₂.node i = none
    · exact a.freed_white i n h1 h2
    · obtain ⟨n₂, hn2⟩ := Option.ne_none_iff_exists'.mp h2
      have hfw := b.freed_white i n₂ hn2 h3
      obtain ⟨n₁, h1', _, _, _, hcol⟩ := a.look i n₂ hn2
      rw [h1] at h1'
      cases h1'
      rcases hcol with h | h
      · rw [← h]; exact hfw
      · rw [hfw] at h; cases h
  mem := by
    intro q hq
    obtain ⟨p₂, hp2, hk, hbuf⟩ := b.mem q hq
    obtain ⟨p₁, hp1, hk', hbuf'⟩ := a.mem p₂ hp2
    exact ⟨p₁, hp1, hk'.trans hk, hbuf.trans hbuf'⟩

theorem cwframe_of_modify (σ : GcCtx) (s : NodeId) (f : Node → Node)
    (hb : ∀ n, (f n).buffered = n.buffered) (hc : ∀ n, (f n).children = n.children)
    (hcnt : ∀ n, (f n).count = n.count)
    (hcol : ∀ n, (f n).colour = n.colour ∨ (f n).colour = Colour.Black) :
    CWFrame σ (σ.modifyNode s f) where
  roots_eq := rfl
  auto_eq := rfl
  next_eq := rfl
  freed_ext := by
    refine ⟨[], by simp [GcCtx.modifyNode], by simp, fun i h h' => ?_⟩
    rw [GcCtx.node_modifyNode] at h'
    by_cases hi : i = s
    · rw [if_pos hi] at h'
      cases hσ : σ.node i with
      | none => exact absurd hσ h
      | some n => rw [hσ] at h'; cases h'
    · rw [if_neg hi] at h'
      exact absurd h' h
  look := by
    intro i n' h'
    rw [GcCtx.node_modifyNode] at h'
    by_cases hi : i = s
    · rw [if_pos hi] at h'
      obtain ⟨n, hn, hfn⟩ := Option.map_eq_some'.mp h'
      exact ⟨n, hn, hfn ▸ hb n, hfn ▸ hc n, hfn ▸ hcnt n, hfn ▸ hcol n⟩
    · rw [if_neg hi] at h'
      exact ⟨n', h', rfl, rfl, rfl, Or.inl rfl⟩
  none_stable := by
    intro i h
    rw [GcCtx.node_modifyNode]
    by_cases hi : i = s
    · rw [if_pos hi, h]; rfl
    · rw [if_neg hi]; exact h
  freed_unbuffered := by
    intro i n h h'
    rw [GcCtx.node_modifyNode] at h'
    by_cases hi : i = s
    · rw [if_pos hi, h] at h'; cases h'
    · rw [if_neg hi, h] at h'; cases h'
  freed_white := by
    intro i n h h'
    rw [GcCtx.node_modifyNode] at h'
    by_cases hi : i = s
    · rw [if_pos hi, h] at h'; cases h'
    · rw [if_neg hi, h] at h'; cases h'
  mem := by
    intro q hq
    obtain ⟨p, hp, hk, hv⟩ := mem_updateA f σ.heap s q hq
    refine ⟨p, hp, hk, ?_⟩
    rcases hv with ⟨_, h⟩ | ⟨_, h⟩
    · rw [h]
    · rw [h]; exact hb p.2

theorem cwframe_systemFree {σ σ₂ : GcCtx} (s : NodeId) (n : Node)
    (hσ : σ.node s = some n) (hw : n.colour = Colour.White) (hbuf : n.buffered = false)
    (h12 : CWFrame σ σ₂) : CWFrame σ (σ₂.systemFree s) := by
  cases h2 : σ₂.node s with
  | none => rw [GcCtx.systemFree_none σ₂ s h2]; exact h12
  | some m =>
    refine ⟨?_, ?_, ?_, ?_, ?_, ?_, ?_, ?_, ?_⟩
    · rw [GcCtx.systemFree_roots]; exact h12.roots_eq
    · rw [GcCtx.systemFree_auto]; exact h12.auto_eq
    · rw [GcCtx.systemFree_nextId]; exact h12.next_eq
    · obtain ⟨l₂, hl, hm, hc⟩ := h12.freed_ext
      refine ⟨l₂ ++ [s], ?_, ?_, ?_⟩
      · rw [GcCtx.systemFree_freedLog_some σ₂ s m h2, hl, List.append_assoc]
      · intro i hi
        rcases List.mem_append.mp hi with h | h
        · exact hm i h
        · simp only [List.mem_singleton] at h
          subst h
          simp [hσ]
      · intro i hne h3
        rw [GcCtx.systemFree_node_some σ₂ s m h2 i] at h3
        by_cases hi : i = s
        · exact List.mem_append.mpr (Or.inr (by simp [hi]))
        · rw [if_neg hi] at h3
          exact List.mem_append.mpr (Or.inl (hc i hne h3))
    · intro i n' h'
      rw [GcCtx.systemFree_node_some σ₂ s m h2 i] at h'
      by_cases hi : i = s
      · rw [if_pos hi] at h'; cases h'
      · rw [if_neg hi] at h'
        exact h12.look i n' h'
    · intro i h
      rw [GcCtx.systemFree_node_some σ₂ s m h2 i]
      by_cases hi : i = s
      · rw [if_pos hi]
      · rw [if_neg hi]
        exact h12.none_stable i h
    · intro i nn hσi h3
      by_cases hi : i = s
      · subst hi
        rw [hσi] at hσ
        cases hσ
        exact hbuf
      · rw [GcCtx.systemFree_node_some σ₂ s m h2 i, if_neg hi] at h3
        exact h12.freed_unbuffered i nn hσi h3
    · intro i nn hσi h3
      by_cases hi : i = s
      · subst hi
        rw [hσi] at hσ
        cases hσ
        exact hw
      · rw [GcCtx.systemFree_node_some σ₂ s m h2 i, if_neg hi] at h3
        exact h12.freed_white i nn hσi h3
    · intro q hq
      rw [GcCtx.systemFree_heap_some σ₂ s m h2] at hq
      exact h12.mem q (mem_removeA σ₂.heap s q hq)

theorem collectWhite_cwframe : ∀ fuel : Nat,
    (∀ σ s σ', GcCtx.collectWhite fuel σ s = some σ' → CWFrame σ σ') ∧
    (∀ σ l σ', GcCtx.collectWhiteKids fuel σ l = some σ' → CWFrame σ σ') := by
  intro fuel
  induction fuel with
  | zero =>
    constructor
    · intro σ s σ' h; simp [GcCtx.collectWhite] at h
    · intro σ l σ' h; simp [GcCtx.collectWhiteKids] at h
  | succ f ih =>
    constructor
    · intro σ s σ' h
      simp only [GcCtx.collectWhite] at h
      cases hn : σ.node s with
      | none =>
        rw [hn] at h
        simp at h
        exact h ▸ cwframe_refl σ
      | some n =>
        rw [hn] at h
        dsimp only at h
        by_cases hg : n.colour = Colour.White ∧ n.buffered = false
        · rw [if_pos hg] at h
          cases hk : GcCtx.collectWhiteKids f
              (σ.modifyNode s (fun m => { m with colour := Colour.Black })) n.children with
          | none => rw [hk] at h; simp at h
          | some σ₂ =>
            rw [hk] at h
            simp at h
            have c1 : CWFrame σ (σ.modifyNode s (fun m => { m with colour := Colour.Black })) :=
              cwframe_of_modify σ s _ (fun _ => rfl) (fun _ => rfl) (fun _ => rfl)
                (fun _ => Or.inr rfl)
            have c2 := ih.2 _ n.children σ₂ hk
            exact h ▸ cwframe_systemFree s n hn hg.1 hg.2 (cwframe_trans c1 c2)
        · rw [if_neg hg] at h
          simp at h
          exact h ▸ cwframe_refl σ
    · intro σ l σ' h
      cases l with
      | nil =>
        simp only [GcCtx.collectWhiteKids] at h
        simp at h
        exact h ▸ cwframe_refl σ
      | cons t ts =>
        simp only [GcCtx.collectWhiteKids] at h
        cases hcw : GcCtx.collectWhite f σ t with
        | none => rw [hcw] at h; simp at h
        | some σ₁ =>
          rw [hcw] at h
          simp at h
          exact cwframe_trans (ih.1 σ t σ₁ hcw) (ih.2 σ₁ ts σ' h)

/-! ## C5 -/

/-- C5 (counterexample): on a two-node White unbuffered cycle, the claim's
ordering -- recurse into the children first, restore `colour = Black`
immediately before freeing -- as written out in
`GcCtx.collectWhiteSpecOrder` never terminates: it revisits the still-White
nodes forever and returns `none` at any fuel (shown at fuel 30).  The
source's `collect_white` recolours the node Black *before* recursing; it
terminates and frees each member exactly once. -/
theorem collectWhite_spec_order_differs :
    GcCtx.collectWhiteSpecOrder 30 whiteCycle 0 = none ∧
    GcCtx.collectWhite 9 whiteCycle 0 =
      some { roots := [], autoCollectCyclesOnDecrement := true, heap := [], weaks := [],
             nextId := 2, freedLog := [1, 0] } :=
  ⟨rfl, rfl⟩

/-- C5 (amended): `collect_white(s)` frees a node exactly when it is White
and not buffered; for such a node it recolours it Black *first* (marking it
processed, which is what prevents double visits through shared descendants
within the pass), then recurses into the children, then frees it. -/
theorem collectWhite_frees_iff (fuel : Nat) (σ : GcCtx) (s : NodeId) (n : Node)
    (h : σ.node s = some n) :
    (¬(n.colour = Colour.White ∧ n.buffered = false) →
        GcCtx.collectWhite (fuel+1) σ s = some σ) ∧
    ((n.colour = Colour.White ∧ n.buffered = false) →
        GcCtx.collectWhite (fuel+1) σ s =
          (GcCtx.collectWhiteKids fuel
             (σ.modifyNode s (fun m => { m with colour := Colour.Black })) n.children).bind
            (fun σ₂ => some (σ₂.systemFree s))) ∧
    (∀ σ', GcCtx.collectWhite (fuel+1) σ s = some σ' →
        ∃ l, σ'.freedLog = σ.freedLog ++ l ∧
          (s ∈ l ↔ (n.colour = Colour.White ∧ n.buffered = false))) := by
  refine ⟨?_, ?_, ?_⟩
  · intro hg
    simp only [GcCtx.collectWhite]
    rw [h]
    dsimp only
    rw [if_neg hg]
  · intro hg
    simp only [GcCtx.collectWhite]
    rw [h]
    dsimp only
    rw [if_pos hg]
    rfl
  · intro σ' h'
    simp only [GcCtx.collectWhite] at h'
    rw [h] at h'
    dsimp only at h'
    by_cases hg : n.colour = Colour.White ∧ n.buffered = false
    · rw [if_pos hg] at h'
      cases hk : GcCtx.collectWhiteKids fuel
          (σ.modifyNode s (fun m => { m with colour := Colour.Black })) n.children with
      | none => rw [hk] at h'; simp at h'
      | some σ₂ =>
        rw [hk] at h'
        simp at h'
        subst h'
        have c1 : CWFrame σ (σ.modifyNode s (fun m => { m with colour := Colour.Black })) :=
          cwframe_of_modify σ s _ (fun _ => rfl) (fun _ => rfl) (fun _ => rfl)
            (fun _ => Or.inr rfl)
        have c2 := (collectWhite_cwframe fuel).2 _ n.children σ₂ hk
        have c12 := cwframe_trans c1 c2
        cases h2 : σ₂.node s with
        | none =>
          obtain ⟨l₂, hl, hm, hc⟩ := c12.freed_ext
          rw [GcCtx.systemFree_none σ₂ s h2]
          refine ⟨l₂, hl, ?_⟩
          simp only [hg, and_self, iff_true]
          exact hc s (by simp [h]) h2
        | some m =>
          obtain ⟨l₂, hl, hm, hc⟩ := c12.freed_ext
          refine ⟨l₂ ++ [s], ?_, ?_⟩
          · rw [GcCtx.systemFree_freedLog_some σ₂ s m h2, hl, List.append_assoc]
          · simp [hg, List.mem_append]
    · rw [if_neg hg] at h'
      simp at h'
      subst h'
      exact ⟨[], by simp, by simp [hg]⟩

/-- Witness for C5 at a concrete input: the first member of the White
two-node cycle is freed by the pass (it appears in the freed ids), exactly
as the frees-iff theorem instantiates there. -/
theorem collectWhite_frees_iff_w :
    ∃ l, ({ roots := [], autoCollectCyclesOnDecrement := true, heap := [], weaks := [],
            nextId := 2, freedLog := [1, 0] } : GcCtx).freedLog = whiteCycle.freedLog ++ l ∧
      (0 ∈ l ↔ (Colour.White = Colour.White ∧ (false : Bool) = false)) :=
  (collectWhite_frees_iff 8 whiteCycle 0 (Node.mk 0 Colour.White false [1] [] (AnyBox.mk 0 0))
    rfl).2.2
    { roots := [], autoCollectCyclesOnDecrement := true, heap := [], weaks := [],
      nextId := 2, freedLog := [1, 0] } rfl

/-! ## GFrame algebra and the marking-walker ladders -/

theorem gframe_refl (σ : GcCtx) : GFrame σ σ where
  roots_eq := rfl
  auto_eq := rfl
  next_eq := rfl
  freed_eq := rfl
  weaks_eq := rfl
  look := fun i n h => ⟨n, h, rfl, rfl, rfl, rfl⟩
  mem := fun q hq => ⟨q, hq, rfl, rfl⟩
  none_stable := fun _ h => h

theorem gframe_trans {σ₁ σ₂ σ₃ : GcCtx} (a : GFrame σ₁ σ₂) (b : GFrame σ₂ σ₃) :
    GFrame σ₁ σ₃ where
  roots_eq := b.roots_eq.trans a.roots_eq
  auto_eq := b.auto_eq.trans a.auto_eq
  next_eq := b.next_eq.trans a.next_eq
  freed_eq := b.freed_eq.trans a.freed_eq
  weaks_eq := b.weaks_eq.trans a.weaks_eq
  look := by
    intro i n h1
    obtain ⟨n₂, h2, hb, hc, hw, hd⟩ := a.look i n h1
    obtain ⟨n₃, h3, hb', hc', hw', hd'⟩ := b.look i n₂ h2
    exact ⟨n₃, h3, hb'.trans hb, hc'.trans hc, hw'.trans hw, hd'.trans hd⟩
  mem := by
    intro q hq
    obtain ⟨p₂, hp2, hk, hbuf⟩ := b.mem q hq
    obtain ⟨p₁, hp1, hk', hbuf'⟩ := a.mem p₂ hp2
    exact ⟨p₁, hp1, hk'.trans hk, hbuf.trans hbuf'⟩
  none_stable := fun i h => b.none_stable i (a.none_stable i h)

theorem gframe_of_modify (σ : GcCtx) (s : NodeId) (f : Node → Node)
    (hb : ∀ n, (f n).buffered = n.buffered) (hc : ∀ n, (f n).children = n.children)
    (hw : ∀ n, (f n).weakNodes = n.weakNodes) (hd : ∀ n, (f n).data = n.data) :
    GFrame σ (σ.modifyNode s f) where
  roots_eq := rfl
  auto_eq := rfl
  next_eq := rfl
  freed_eq := rfl
  weaks_eq := rfl
  look := by
    intro i n h
    rw [GcCtx.node_modifyNode]
    by_cases hi : i = s
    · rw [if_pos hi, h]
      exact ⟨f n, rfl, hb n, hc n, hw n, hd n⟩
    · rw [if_neg hi]
      exact ⟨n, h, rfl, rfl, rfl, rfl⟩
  mem := by
    intro q hq
    obtain ⟨p, hp, hk, hv⟩ := mem_updateA f σ.heap s q hq
    refine ⟨p, hp, hk, ?_⟩
    rcases hv with ⟨_, h⟩ | ⟨_, h⟩
    · rw [h]
    · rw [h]; exact hb p.2
  none_stable := by
    intro i h
    rw [GcCtx.node_modifyNode]
    by_cases hi : i = s
    · rw [if_pos hi, h]; rfl
    · rw [if_neg hi]; exact h

theorem markGray_gframe : ∀ fuel : Nat,
    (∀ σ s σ', GcCtx.markGray fuel σ s = some σ' → GFrame σ σ') ∧
    (∀ σ l σ', GcCtx.markGrayKids fuel σ l = some σ' → GFrame σ σ') := by
  intro fuel
  induction fuel with
  | zero =>
    constructor
    · intro σ s σ' h; simp [GcCtx.markGray] at h
    · intro σ l σ' h; simp [GcCtx.markGrayKids] at h
  | succ f ih =>
    constructor
    · intro σ s σ' h
      simp only [GcCtx.markGray] at h
      cases hn : σ.node s with
      | none =>
        rw [hn] at h
        simp at h
        exact h ▸ gframe_refl σ
      | some n =>
        rw [hn] at h
        dsimp only at h
        by_cases hg : n.colour = Colour.Gray
        · rw [if_pos hg] at h
          simp at h
          exact h ▸ gframe_refl σ
        · rw [if_neg hg] at h
          have c1 : GFrame σ (σ.modifyNode s (fun m => { m with colour := Colour.Gray })) :=
            gframe_of_modify σ s _ (fun _ => rfl) (fun _ => rfl) (fun _ => rfl) (fun _ => rfl)
          exact gframe_trans c1 (ih.2 _ n.children σ' h)
    · intro σ l σ' h
      cases l with
      | nil =>
        simp only [GcCtx.markGrayKids] at h
        simp at h
        exact h ▸ gframe_refl σ
      | cons t ts =>
        simp only [GcCtx.markGrayKids] at h
        cases hmg : GcCtx.markGray f
            (σ.modifyNode t (fun m => { m with count := m.count - 1 })) t with
        | none => rw [hmg] at h; simp at h
        | some σ₂ =>
          rw [hmg] at h
          simp at h
          have c0 : GFrame σ (σ.modifyNode t (fun m => { m with count := m.count - 1 })) :=
            gframe_of_modify σ t _ (fun _ => rfl) (fun _ => rfl) (fun _ => rfl) (fun _ => rfl)
          exact gframe_trans (gframe_trans c0 (ih.1 _ t σ₂ hmg)) (ih.2 σ₂ ts σ' h)

theorem scanBlack_gframe : ∀ fuel : Nat,
    (∀ σ s σ', GcCtx.scanBlack fuel σ s = some σ' → GFrame σ σ') ∧
    (∀ σ l σ', GcCtx.scanBlackKids fuel σ l = some σ' → GFrame σ σ') := by
  intro fuel
  induction fuel with
  | zero =>
    constructor
    · intro σ s σ' h; simp [GcCtx.scanBlack] at h
    · intro σ l σ' h; simp [GcCtx.scanBlackKids] at h
  | succ f ih =>
    constructor
    · intro σ s σ' h
      simp only [GcCtx.scanBlack] at h
      cases hn : σ.node s with
      | none =>
        rw [hn] at h
        simp at h
        exact h ▸ gframe_refl σ
      | some n =>
        rw [hn] at h
        dsimp only at h
        have c1 : GFrame σ (σ.modifyNode s (fun m => { m with colour := Colour.Black })) :=
          gframe_of_modify σ s _ (fun _ => rfl) (fun _ => rfl) (fun _ => rfl) (fun _ => rfl)
        exact gframe_trans c1 (ih.2 _ n.children σ' h)
    · intro σ l σ' h
      cases l with
      | nil =>
        simp only [GcCtx.scanBlackKids] at h
        simp at h
        exact h ▸ gframe_refl σ
      | cons t ts =>
        simp only [GcCtx.scanBlackKids] at h
        have c0 : GFrame σ (σ.modifyNode t (fun m => { m with count := m.count + 1 })) :=
          gframe_of_modify σ t _ (fun _ => rfl) (fun _ => rfl) (fun _ => rfl) (fun _ => rfl)
        cases hn : (σ.modifyNode t (fun m => { m with count := m.count + 1 })).node t with
        | none =>
          rw [hn] at h
          exact gframe_trans c0 (ih.2 _ ts σ' h)
        | some m =>
          rw [hn] at h
          dsimp only at h
          by_cases hb : m.colour = Colour.Black
          · rw [if_pos hb] at h
            exact gframe_trans c0 (ih.2 _ ts σ' h)
          · rw [if_neg hb] at h
            cases hsb : GcCtx.scanBlack f
                (σ.modifyNode t (fun m => { m with count := m.count + 1 })) t with
            | none => rw [hsb] at h; simp at h
            | some σ₂ =>
              rw [hsb] at h
              simp at h
              exact gframe_trans (gframe_trans c0 (ih.1 _ t σ₂ hsb)) (ih.2 σ₂ ts σ' h)

theorem scan_gframe : ∀ fuel : Nat,
    (∀ σ s σ', GcCtx.scan fuel σ s = some σ' → GFrame σ σ') ∧
    (∀ σ l σ', GcCtx.scanKids fuel σ l = some σ' → GFrame σ σ') := by
  intro fuel
  induction fuel with
  | zero =>
    constructor
    · intro σ s σ' h; simp [GcCtx.scan] at h
    · intro σ l σ' h; simp [GcCtx.scanKids] at h
  | succ f ih =>
    constructor
    · intro σ s σ' h
      simp only [GcCtx.scan] at h
      cases hn : σ.node s with
      | none =>
        rw [hn] at h
        simp at h
        exact h ▸ gframe_refl σ
      | some n =>
        rw [hn] at h
        dsimp only at h
        by_cases hg : n.colour = Colour.Gray
        · rw [if_pos hg] at h
          by_cases hcnt : n.count > 0
          · rw [if_pos hcnt] at h
            exact (scanBlack_gframe (f+1)).1 σ s σ' h
          · rw [if_neg hcnt] at h
            have c1 : GFrame σ (σ.modifyNode s (fun m => { m with colour := Colour.White })) :=
              gframe_of_modify σ s _ (fun _ => rfl) (fun _ => rfl) (fun _ => rfl) (fun _ => rfl)
            exact gframe_trans c1 (ih.2 _ n.children σ' h)
        · rw [if_neg hg] at h
          simp at h
          exact h ▸ gframe_refl σ
    · intro σ l σ' h
      cases l with
      | nil =>
        simp only [GcCtx.scanKids] at h
        simp at h
        exact h ▸ gframe_refl σ
      | cons t ts =>
        simp only [GcCtx.scanKids] at h
        cases hsc : GcCtx.scan f σ t with
        | none => rw [hsc] at h; simp at h
        | some σ₁ =>
          rw [hsc] at h
          simp at h
          exact gframe_trans (ih.1 σ t σ₁ hsc) (ih.2 σ₁ ts σ' h)

/-! ## DFrame algebra and the decrement cascade ladder -/

theorem dframe_refl (σ : GcCtx) : DFrame σ σ :=
  ⟨rfl, rfl, [], by simp⟩

theorem dframe_trans {σ₁ σ₂ σ₃ : GcCtx} (a : DFrame σ₁ σ₂) (b : DFrame σ₂ σ₃) :
    DFrame σ₁ σ₃ := by
  obtain ⟨e₁, he₁⟩ := a.roots_ext
  obtain ⟨e₂, he₂⟩ := b.roots_ext
  exact ⟨b.auto_eq.trans a.auto_eq, b.next_eq.trans a.next_eq,
    e₁ ++ e₂, by rw [he₂, he₁, List.append_assoc]⟩

theorem dframe_modifyNode (σ : GcCtx) (s : NodeId) (f : Node → Node) :
    DFrame σ (σ.modifyNode s f) :=
  ⟨rfl, rfl, [], by simp [GcCtx.modifyNode]⟩

theorem dframe_systemFree (σ : GcCtx) (s : NodeId) : DFrame σ (σ.systemFree s) :=
  ⟨GcCtx.systemFree_auto σ s, GcCtx.systemFree_nextId σ s, [],
    by rw [GcCtx.systemFree_roots, List.append_nil]⟩

theorem possibleRoot_dframe (σ : GcCtx) (s : NodeId) : DFrame σ (σ.possibleRoot s) := by
  unfold GcCtx.possibleRoot
  cases hn : σ.node s with
  | none => exact dframe_refl σ
  | some n =>
    dsimp only
    by_cases hp : n.colour = Colour.Purple
    · rw [if_pos hp]
      exact dframe_refl σ
    · rw [if_neg hp]
      by_cases hb : n.buffered
      · rw [if_pos hb]
        exact dframe_modifyNode σ s _
      · rw [if_neg hb]
        exact ⟨rfl, rfl, [s], rfl⟩

theorem decrement_dframe : ∀ fuel : Nat,
    (∀ σ s σ', GcCtx.decrement fuel σ s = some σ' → DFrame σ σ') ∧
    (∀ σ s σ', GcCtx.release fuel σ s = some σ' → DFrame σ σ') ∧
    (∀ σ l σ', GcCtx.decrementKids fuel σ l = some σ' → DFrame σ σ') := by
  intro fuel
  induction fuel with
  | zero =>
    refine ⟨?_, ?_, ?_⟩
    · intro σ s σ' h; simp [GcCtx.decrement] at h
    · intro σ s σ' h; simp [GcCtx.release] at h
    · intro σ l σ' h; simp [GcCtx.decrementKids] at h
  | succ f ih =>
    refine ⟨?_, ?_, ?_⟩
    · intro σ s σ' h
      simp only [GcCtx.decrement] at h
      cases hn : σ.node s with
      | none =>
        rw [hn] at h
        simp at h
        exact h ▸ dframe_refl σ
      | some n =>
        rw [hn] at h
        dsimp only at h
        by_cases hz : n.count - 1 = 0
        · rw [if_pos hz] at h
          exact dframe_trans (dframe_modifyNode σ s _) (ih.2.1 _ s σ' h)
        · rw [if_neg hz] at h
          simp at h
          exact h ▸ dframe_trans (dframe_modifyNode σ s _) (possibleRoot_dframe _ s)
    · intro σ s σ' h
      simp only [GcCtx.release] at h
      cases hn : σ.node s with
      | none =>
        rw [hn] at h
        simp at h
        exact h ▸ dframe_refl σ
      | some n =>
        rw [hn] at h
        dsimp only at h
        cases hk : GcCtx.decrementKids f σ n.children with
        | none => rw [hk] at h; simp at h
        | some σ₁ =>
          rw [hk] at h
          simp at h
          have d01 : DFrame σ (σ₁.modifyNode s (fun m => { m with colour := Colour.Black })) :=
            dframe_trans (ih.2.2 σ n.children σ₁ hk) (dframe_modifyNode σ₁ s _)
          cases hm : (σ₁.modifyNode s (fun m => { m with colour := Colour.Black })).node s with
          | none =>
            rw [hm] at h
            simp at h
            exact h ▸ d01
          | some m =>
            rw [hm] at h
            dsimp only at h
            by_cases hb : m.buffered
            · rw [if_pos hb] at h
              simp at h
              exact h ▸ d01
            · rw [if_neg hb] at h
              simp at h
              exact h ▸ dframe_trans d01 (dframe_systemFree _ s)
    · intro σ l σ' h
      cases l with
      | nil =>
        simp only [GcCtx.decrementKids] at h
        simp at h
        exact h ▸ dframe_refl σ
      | cons t ts =>
        simp only [GcCtx.decrementKids] at h
        cases hd : GcCtx.decrement f σ t with
        | none => rw [hd] at h; simp at h
        | some σ₁ =>
          rw [hd] at h
          simp at h
          exact dframe_trans (ih.1 σ t σ₁ hd) (ih.2.2 σ₁ ts σ' h)

/-! ## C6 -/

/-- C6: `release(n)` decrements every child through the same decrement
(the cascade loop `decrementKids`), sets the node's colour Black, and
frees it immediately exactly when its buffered flag is false; `release`
never removes entries from the root buffer (entries are only appended), so
a buffered node stays put and its freeing is deferred to `mark_roots`. -/
theorem release_characterization (fuel : Nat) (σ : GcCtx) (s : NodeId) (n : Node)
    (h : σ.node s = some n) :
    GcCtx.release (fuel+1) σ s =
      (GcCtx.decrementKids fuel σ n.children).bind (fun σ₁ =>
        let σ₂ := σ₁.modifyNode s (fun m => { m with colour := Colour.Black })
        match σ₂.node s with
        | none => some σ₂
        | some m => if m.buffered then some σ₂ else some (σ₂.systemFree s)) ∧
    (∀ σ', GcCtx.release (fuel+1) σ s = some σ' → ∃ extra, σ'.roots = σ.roots ++ extra) ∧
    (∀ σ₁ m, GcCtx.decrementKids fuel σ n.children = some σ₁ →
      (σ₁.modifyNode s (fun mm => { mm with colour := Colour.Black })).node s = some m →
      m.colour = Colour.Black ∧
      (m.buffered = true →
        GcCtx.release (fuel+1) σ s =
          some (σ₁.modifyNode s (fun mm => { mm with colour := Colour.Black }))) ∧
      (m.buffered = false →
        GcCtx.release (fuel+1) σ s =
          some ((σ₁.modifyNode s (fun mm => { mm with colour := Colour.Black })).systemFree s) ∧
        ((σ₁.modifyNode s (fun mm => { mm with colour := Colour.Black })).systemFree s).node s
          = none)) := by
  have heq : GcCtx.release (fuel+1) σ s =
      (GcCtx.decrementKids fuel σ n.children).bind (fun σ₁ =>
        let σ₂ := σ₁.modifyNode s (fun m => { m with colour := Colour.Black })
        match σ₂.node s with
        | none => some σ₂
        | some m => if m.buffered then some σ₂ else some (σ₂.systemFree s)) := by
    simp only [GcCtx.release]
    rw [h]
    rfl
  refine ⟨heq, fun σ' h' => ((decrement_dframe (fuel+1)).2.1 σ s σ' h').roots_ext, ?_⟩
  intro σ₁ m hk hm
  have hm' := hm
  rw [GcCtx.node_modifyNode, if_pos rfl] at hm'
  obtain ⟨n₁, hn₁, hmm⟩ := Option.map_eq_some'.mp hm'
  refine ⟨by rw [← hmm], ?_, ?_⟩
  · intro hb
    rw [heq, hk, Option.some_bind']
    dsimp only
    rw [hm]
    dsimp only
    rw [if_pos hb]
  · intro hb
    constructor
    · rw [heq, hk, Option.some_bind']
      dsimp only
      rw [hm]
      dsimp only
      rw [if_neg (by simp [hb])]
    · rw [GcCtx.systemFree_node_some _ s m hm s, if_pos rfl]

/-- Witness for C6 at a concrete input: releasing the first member of the
White two-node cycle appends to the buffer (never removes) and, the node
being unbuffered after the cascade, frees it. -/
theorem release_characterization_w :
    (∃ extra,
      ({ roots := [1], autoCollectCyclesOnDecrement := true,
         heap := [(1, Node.mk (-1) Colour.Purple true [0] [] (AnyBox.mk 0 0))],
         weaks := [], nextId := 2, freedLog := [0] } : GcCtx).roots
        = whiteCycle.roots ++ extra) ∧
    ((({ roots := [1], autoCollectCyclesOnDecrement := true,
         heap := [(0, Node.mk 0 Colour.White false [1] [] (AnyBox.mk 0 0)),
                  (1, Node.mk (-1) Colour.Purple true [0] [] (AnyBox.mk 0 0))],
         weaks := [], nextId := 2, freedLog := [] } : GcCtx).modifyNode 0
          (fun mm => { mm with colour := Colour.Black })).systemFree 0).node 0 = none := by
  have T := release_characterization 3 whiteCycle 0
    (Node.mk 0 Colour.White false [1] [] (AnyBox.mk 0 0)) rfl
  refine ⟨T.2.1 _ rfl, ?_⟩
  exact ((T.2.2
    { roots := [1], autoCollectCyclesOnDecrement := true,
      heap := [(0, Node.mk 0 Colour.White false [1] [] (AnyBox.mk 0 0)),
               (1, Node.mk (-1) Colour.Purple true [0] [] (AnyBox.mk 0 0))],
      weaks := [], nextId := 2, freedLog := [] }
    (Node.mk 0 Colour.Black false [1] [] (AnyBox.mk 0 0)) rfl rfl).2.2 rfl).2

/-! ## Preservation of the auto-collect flag -/

theorem markRootsLoop_auto (fuel : Nat) : ∀ l σ σ',
    GcCtx.markRootsLoop fuel σ l = some σ' →
    σ'.autoCollectCyclesOnDecrement = σ.autoCollectCyclesOnDecrement := by
  intro l
  induction l with
  | nil =>
    intro σ σ' h
    simp only [GcCtx.markRootsLoop] at h
    simp at h
    rw [h]
  | cons s rest ih =>
    intro σ σ' h
    simp only [GcCtx.markRootsLoop] at h
    cases hn : σ.node s with
    | none =>
      rw [hn] at h
      exact ih σ σ' h
    | some n =>
      rw [hn] at h
      dsimp only at h
      by_cases hg : n.colour = Colour.Purple ∧ n.count > 0
      · rw [if_pos hg] at h
        cases hmg : GcCtx.markGray fuel σ s with
        | none => rw [hmg] at h; simp at h
        | some σ₁ =>
          rw [hmg] at h
          simp at h
          rw [ih σ₁ σ' h, ((markGray_gframe fuel).1 σ s σ₁ hmg).auto_eq]
      · rw [if_neg hg] at h
        rw [ih _ σ' h]
        by_cases hf : n.colour = Colour.Black ∧ n.count = 0
        · rw [if_pos hf, GcCtx.systemFree_auto]
          rfl
        · rw [if_neg hf]
          rfl

theorem scanRootsLoop_auto (fuel : Nat) : ∀ l σ σ',
    GcCtx.scanRootsLoop fuel σ l = some σ' →
    σ'.autoCollectCyclesOnDecrement = σ.autoCollectCyclesOnDecrement := by
  intro l
  induction l with
  | nil =>
    intro σ σ' h
    simp only [GcCtx.scanRootsLoop] at h
    simp at h
    rw [h]
  | cons s rest ih =>
    intro σ σ' h
    simp only [GcCtx.scanRootsLoop] at h
    cases hsc : GcCtx.scan fuel σ s with
    | none => rw [hsc] at h; simp at h
    | some σ₁ =>
      rw [hsc] at h
      simp at h
      rw [ih σ₁ σ' h, ((scan_gframe fuel).1 σ s σ₁ hsc).auto_eq]

theorem collectRootsLoop_auto (fuel : Nat) : ∀ l σ σ',
    GcCtx.collectRootsLoop fuel σ l = some σ' →
    σ'.autoCollectCyclesOnDecrement = σ.autoCollectCyclesOnDecrement := by
  intro l
  induction l with
  | nil =>
    intro σ σ' h
    simp only [GcCtx.collectRootsLoop] at h
    simp at h
    rw [h]
  | cons s rest ih =>
    intro σ σ' h
    simp only [GcCtx.collectRootsLoop] at h
    cases hcw : GcCtx.collectWhite fuel
        (σ.modifyNode s (fun m => { m with buffered := false })) s with
    | none => rw [hcw] at h; simp at h
    | some σ₂ =>
      rw [hcw] at h
      simp at h
      rw [ih σ₂ σ' h, ((collectWhite_cwframe fuel).1 _ s σ₂ hcw).auto_eq]
      rfl

theorem collectCycles_auto (fuel : Nat) (σ σ' : GcCtx)
    (h : GcCtx.collectCycles fuel σ = some σ') :
    σ'.autoCollectCyclesOnDecrement = σ.autoCollectCyclesOnDecrement := by
  simp only [GcCtx.collectCycles] at h
  cases h1 : GcCtx.markRoots fuel σ with
  | none => rw [h1] at h; simp at h
  | some σ₁ =>
    rw [h1] at h
    simp at h
    cases h2 : GcCtx.scanRoots fuel σ₁ with
    | none => rw [h2] at h; simp at h
    | some σ₂ =>
      rw [h2] at h
      simp at h
      have e3 := collectRootsLoop_auto fuel (σ₂.collectRootsEnter).1 (σ₂.collectRootsEnter).2
        σ' h
      have e1 := markRootsLoop_auto fuel σ.roots σ σ₁ h1
      have e2 := scanRootsLoop_auto fuel σ₁.roots σ₁ σ₂ h2
      rw [e3, ← e1, ← e2]
      rfl

/-! ## C9 -/

/-- C9: the auto-collect flag is set to true by context construction and
no operation of the library ever changes it; consequently every drop of a
strong handle is a decrement followed by a full `collect_cycles`. -/
theorem autoCollect_always_on :
    GcCtx.new.autoCollectCyclesOnDecrement = true ∧
    (∀ (σ : GcCtx) (v : AnyBox), ((σ.newGc v).2).autoCollectCyclesOnDecrement
        = σ.autoCollectCyclesOnDecrement) ∧
    (∀ (σ : GcCtx) (s : NodeId), (σ.gcClone s).autoCollectCyclesOnDecrement
        = σ.autoCollectCyclesOnDecrement) ∧
    (∀ (fuel : Nat) (σ : GcCtx) (s : NodeId) (σ' : GcCtx),
        GcCtx.decrement fuel σ s = some σ' →
        σ'.autoCollectCyclesOnDecrement = σ.autoCollectCyclesOnDecrement) ∧
    (∀ (fuel : Nat) (σ σ' : GcCtx), GcCtx.collectCycles fuel σ = some σ' →
        σ'.autoCollectCyclesOnDecrement = σ.autoCollectCyclesOnDecrement) ∧
    (∀ (fuel : Nat) (σ : GcCtx) (s : NodeId) (σ' : GcCtx),
        GcCtx.gcDrop fuel σ s = some σ' →
        σ'.autoCollectCyclesOnDecrement = σ.autoCollectCyclesOnDecrement) ∧
    (∀ (σ : GcCtx) (s : NodeId), ((σ.downgrade s).2).autoCollectCyclesOnDecrement
        = σ.autoCollectCyclesOnDecrement) ∧
    (∀ (σ : GcCtx) (w : NodeId), ((σ.upgrade w).2).autoCollectCyclesOnDecrement
        = σ.autoCollectCyclesOnDecrement) ∧
    (∀ (σ : GcCtx) (w : NodeId), (σ.weakDrop w).autoCollectCyclesOnDecrement
        = σ.autoCollectCyclesOnDecrement) ∧
    (∀ (σ : GcCtx) (p c : NodeId), (σ.addChild p c).autoCollectCyclesOnDecrement
        = σ.autoCollectCyclesOnDecrement) ∧
    (∀ (σ : GcCtx) (p c : NodeId), (σ.removeChild p c).autoCollectCyclesOnDecrement
        = σ.autoCollectCyclesOnDecrement) ∧
    (∀ (fuel : Nat) (σ : GcCtx) (s : NodeId), σ.autoCollectCyclesOnDecrement = true →
        GcCtx.gcDrop fuel σ s = (GcCtx.decrement fuel σ s).bind (GcCtx.collectCycles fuel)) := by
  have hdec : ∀ fuel σ s σ', GcCtx.decrement fuel σ s = some σ' →
      σ'.autoCollectCyclesOnDecrement = σ.autoCollectCyclesOnDecrement :=
    fun fuel σ s σ' h => ((decrement_dframe fuel).1 σ s σ' h).auto_eq
  refine ⟨rfl, fun σ v => rfl, fun σ s => rfl, hdec, collectCycles_auto, ?_,
    fun σ s => rfl, ?_, ?_, fun σ p c => rfl, fun σ p c => rfl, ?_⟩
  · intro fuel σ s σ' h
    simp only [GcCtx.gcDrop] at h
    cases hd : GcCtx.decrement fuel σ s with
    | none => rw [hd] at h; simp at h
    | some σ₁ =>
      rw [hd] at h
      simp at h
      by_cases ha : σ₁.autoCollectCyclesOnDecrement = true
      · rw [if_pos ha] at h
        rw [collectCycles_auto fuel σ₁ σ' h, hdec fuel σ s σ₁ hd]
      · rw [if_neg ha] at h
        simp at h
        rw [← h]
        exact hdec fuel σ s σ₁ hd
  · intro σ w
    unfold GcCtx.upgrade
    cases hw : σ.weak w with
    | none => rfl
    | some wn =>
      cases hn : wn.node with
      | none => simp [hn]
      | some s => simp [hn, GcCtx.increment, GcCtx.modifyNode]
  · intro σ w
    unfold GcCtx.weakDrop
    cases hw : σ.weak w with
    | none => rfl
    | some wn =>
      cases hn : wn.node with
      | none => simp [hn]
      | some s => simp [hn, GcCtx.modifyNode]
  · intro fuel σ s ha
    simp only [GcCtx.gcDrop]
    cases hd : GcCtx.decrement fuel σ s with
    | none => rfl
    | some σ₁ =>
      have ha1 : σ₁.autoCollectCyclesOnDecrement = true := by
        rw [hdec fuel σ s σ₁ hd]
        exact ha
      simp [ha1]

/-- Witness for C9 at a concrete input: the flag survives the drop that
frees the demo node, and that drop is exactly decrement-then-collect. -/
theorem autoCollect_always_on_w :
    gcWeakDemoFreed.autoCollectCyclesOnDecrement
      = gcWeakDemo.autoCollectCyclesOnDecrement ∧
    GcCtx.gcDrop 9 gcWeakDemo 0 =
      (GcCtx.decrement 9 gcWeakDemo 0).bind (GcCtx.collectCycles 9) :=
  ⟨autoCollect_always_on.2.2.2.2.2.1 9 gcWeakDemo 0 gcWeakDemoFreed rfl,
   autoCollect_always_on.2.2.2.2.2.2.2.2.2.2.2 9 gcWeakDemo 0 rfl⟩

/-! ## WF transport lemmas -/

theorem WF_of_gframe {σ σ' : GcCtx} (g : GFrame σ σ') (hw : WF σ) : WF σ' := by
  obtain ⟨h1, h2, h3, h4⟩ := hw
  refine ⟨g.roots_eq ▸ h1, ?_, ?_, ?_⟩
  · intro i hi
    rw [g.roots_eq] at hi
    have hmap := h2 i hi
    obtain ⟨n, hn, hb⟩ := Option.map_eq_some'.mp hmap
    obtain ⟨n', hn', hb', _, _, _⟩ := g.look i n hn
    rw [hn']
    simp [hb', hb]
  · intro q hq hbuf
    obtain ⟨p, hp, hk, hb⟩ := g.mem q hq
    rw [g.roots_eq, ← hk]
    exact h3 p hp (by rw [← hb]; exact hbuf)
  · intro q hq
    obtain ⟨p, hp, hk, _⟩ := g.mem q hq
    rw [g.next_eq, ← hk]
    exact h4 p hp

theorem WF_modify_pres {σ : GcCtx} (s : NodeId) (f : Node → Node)
    (hb : ∀ n, (f n).buffered = n.buffered) (hw : WF σ) : WF (σ.modifyNode s f) := by
  obtain ⟨h1, h2, h3, h4⟩ := hw
  refine ⟨h1, ?_, ?_, ?_⟩
  · intro i hi
    rw [GcCtx.node_modifyNode]
    by_cases his : i = s
    · rw [if_pos his]
      have hmap := h2 i hi
      obtain ⟨n, hn, hbn⟩ := Option.map_eq_some'.mp hmap
      rw [hn]
      simp [hb, hbn]
    · rw [if_neg his]
      exact h2 i hi
  · intro q hq hbuf
    obtain ⟨p, hp, hk, hv⟩ := mem_updateA f σ.heap s q hq
    rcases hv with ⟨_, he⟩ | ⟨_, he⟩
    · rw [← hk]
      exact h3 p hp (by rw [← he]; exact hbuf)
    · rw [← hk]
      refine h3 p hp ?_
      rw [he, hb] at hbuf
      exact hbuf
  · intro q hq
    obtain ⟨p, hp, hk, _⟩ := mem_updateA f σ.heap s q hq
    rw [← hk]
    exact h4 p hp

theorem GcCtx.node_setRoots (σ : GcCtx) (r : List NodeId) (i : NodeId) :
    ({ σ with roots := r } : GcCtx).node i = σ.node i := rfl

theorem WF_after_push (σ : GcCtx) (s : NodeId) (n : Node) (hn : σ.node s = some n)
    (hb : n.buffered = false) (hw : WF σ) :
    WF { (σ.modifyNode s (fun m => { m with colour := Colour.Purple })).modifyNode s
          (fun m => { m with buffered := true }) with
         roots := ((σ.modifyNode s (fun m => { m with colour := Colour.Purple })).modifyNode s
          (fun m => { m with buffered := true })).roots ++ [s] } := by
  have hns : s ∉ σ.roots := by
    intro hs
    have h := hw.2.1 s hs
    rw [hn] at h
    simp at h
    rw [h] at hb
    cases hb
  obtain ⟨h1, h2, h3, h4⟩ := hw
  have hroots :
      ((σ.modifyNode s (fun m => { m with colour := Colour.Purple })).modifyNode s
        (fun m => { m with buffered := true })).roots = σ.roots := rfl
  refine ⟨?_, ?_, ?_, ?_⟩
  · show (((σ.modifyNode s _).modifyNode s _).roots ++ [s]).Nodup
    rw [hroots]
    simp only [List.nodup_append, List.nodup_cons, List.not_mem_nil, not_false_iff,
      List.nodup_nil, and_true, true_and]
    refine ⟨h1, fun a ha hb' => ?_⟩
    simp only [List.mem_singleton] at hb'
    exact hns (hb' ▸ ha)
  · intro i hi
    rw [hroots] at hi
    rw [GcCtx.node_setRoots, GcCtx.node_modifyNode]
    rcases List.mem_append.mp hi with hi | hi
    · have his : ¬ i = s := fun he => hns (he ▸ hi)
      rw [if_neg his, GcCtx.node_modifyNode, if_neg his]
      exact h2 i hi
    · simp only [List.mem_singleton] at hi
      rw [if_pos hi, GcCtx.node_modifyNode, if_pos hi]
      subst hi
      rw [hn]
      rfl
  · intro q hq hbuf
    rw [hroots]
    obtain ⟨p₁, hp₁, hk₁, hv₁⟩ := mem_updateA _ _ s q hq
    by_cases hqs : q.1 = s
    · exact List.mem_append.mpr (Or.inr (by simp [hqs]))
    · rcases hv₁ with ⟨_, he₁⟩ | ⟨hq', _⟩
      · obtain ⟨p₀, hp₀, hk₀, hv₀⟩ := mem_updateA _ _ s p₁ hp₁
        rcases hv₀ with ⟨_, he₀⟩ | ⟨hp', _⟩
        · refine List.mem_append.mpr (Or.inl ?_)
          rw [← hk₁, ← hk₀]
          exact h3 p₀ hp₀ (by rw [← he₀, ← he₁]; exact hbuf)
        · exact absurd (hk₁ ▸ hp') hqs
      · exact absurd hq' hqs
  · intro q hq
    obtain ⟨p₁, hp₁, hk₁, _⟩ := mem_updateA _ _ s q hq
    obtain ⟨p₀, hp₀, hk₀, _⟩ := mem_updateA _ _ s p₁ hp₁
    rw [← hk₁, ← hk₀]
    exact h4 p₀ hp₀

theorem possibleRoot_WF {σ : GcCtx} (s : NodeId) (hw : WF σ) : WF (σ.possibleRoot s) := by
  unfold GcCtx.possibleRoot
  cases hn : σ.node s with
  | none => exact hw
  | some n =>
    dsimp only
    by_cases hp : n.colour = Colour.Purple
    · rw [if_pos hp]
      exact hw
    · rw [if_neg hp]
      by_cases hb : n.buffered
      · rw [if_pos hb]
        exact WF_modify_pres s _ (fun _ => rfl) hw
      · rw [if_neg hb]
        exact WF_after_push σ s n hn (by simpa using hb) hw

theorem systemFree_WF {σ : GcCtx} (s : NodeId) (m : Node) (hm : σ.node s = some m)
    (hb : m.buffered = false) (hw : WF σ) : WF (σ.systemFree s) := by
  obtain ⟨h1, h2, h3, h4⟩ := hw
  have hns : s ∉ σ.roots := by
    intro hs
    have := h2 s hs
    rw [hm] at this
    simp at this
    rw [this] at hb
    cases hb
  refine ⟨?_, ?_, ?_, ?_⟩
  · rw [GcCtx.systemFree_roots]; exact h1
  · intro i hi
    rw [GcCtx.systemFree_roots] at hi
    have his : ¬ i = s := fun he => hns (he ▸ hi)
    rw [GcCtx.systemFree_node_some σ s m hm i, if_neg his]
    exact h2 i hi
  · intro q hq hbuf
    rw [GcCtx.systemFree_heap_some σ s m hm] at hq
    rw [GcCtx.systemFree_roots]
    exact h3 q (mem_removeA σ.heap s q hq) hbuf
  · intro q hq
    rw [GcCtx.systemFree_heap_some σ s m hm] at hq
    rw [GcCtx.systemFree_nextId]
    exact h4 q (mem_removeA σ.heap s q hq)

theorem decrement_WF : ∀ fuel : Nat,
    (∀ σ s σ', WF σ → GcCtx.decrement fuel σ s = some σ' → WF σ') ∧
    (∀ σ s σ', WF σ → GcCtx.release fuel σ s = some σ' → WF σ') ∧
    (∀ σ l σ', WF σ → GcCtx.decrementKids fuel σ l = some σ' → WF σ') := by
  intro fuel
  induction fuel with
  | zero =>
    refine ⟨?_, ?_, ?_⟩
    · intro σ s σ' _ h; simp [GcCtx.decrement] at h
    · intro σ s σ' _ h; simp [GcCtx.release] at h
    · intro σ l σ' _ h; simp [GcCtx.decrementKids] at h
  | succ f ih =>
    refine ⟨?_, ?_, ?_⟩
    · intro σ s σ' hw h
      simp only [GcCtx.decrement] at h
      cases hn : σ.node s with
      | none =>
        rw [hn] at h
        simp at h
        exact h ▸ hw
      | some n =>
        rw [hn] at h
        dsimp only at h
        have hw₁ : WF (σ.modifyNode s (fun m => { m with count := m.count - 1 })) :=
          WF_modify_pres s _ (fun _ => rfl) hw
        by_cases hz : n.count - 1 = 0
        · rw [if_pos hz] at h
          exact ih.2.1 _ s σ' hw₁ h
        · rw [if_neg hz] at h
          simp at h
          exact h ▸ possibleRoot_WF s hw₁
    · intro σ s σ' hw h
      simp only [GcCtx.release] at h
      cases hn : σ.node s with
      | none =>
        rw [hn] at h
        simp at h
        exact h ▸ hw
      | some n =>
        rw [hn] at h
        dsimp only at h
        cases hk : GcCtx.decrementKids f σ n.children with
        | none => rw [hk] at h; simp at h
        | some σ₁ =>
          rw [hk] at h
          rw [show ∀ (f' : GcCtx → Option GcCtx), ((some σ₁ : Option GcCtx) >>= f') = f' σ₁
              from fun _ => rfl] at h
          have hw₂ : WF (σ₁.modifyNode s (fun m => { m with colour := Colour.Black })) :=
            WF_modify_pres s _ (fun _ => rfl) (ih.2.2 σ n.children σ₁ hw hk)
          cases hm : (σ₁.modifyNode s (fun m => { m with colour := Colour.Black })).node s with
          | none =>
            rw [hm] at h
            simp at h
            exact h ▸ hw₂
          | some m =>
            rw [hm] at h
            dsimp only at h
            by_cases hb : m.buffered = true
            · rw [if_pos hb] at h
              simp at h
              exact h ▸ hw₂
            · rw [if_neg hb] at h
              simp at h
              exact h ▸ systemFree_WF s m hm (Bool.not_eq_true _ ▸ hb) hw₂
    · intro σ l σ' hw h
      cases l with
      | nil =>
        simp only [GcCtx.decrementKids] at h
        simp at h
        exact h ▸ hw
      | cons t ts =>
        simp only [GcCtx.decrementKids] at h
        cases hd : GcCtx.decrement f σ t with
        | none => rw [hd] at h; simp at h
        | some σ₁ =>
          rw [hd] at h
          simp at h
          exact ih.2.2 σ₁ ts σ' (ih.1 σ t σ₁ hw hd) h

theorem newGc_node_pres (σ : GcCtx) (v : AnyBox) (i : NodeId) (n : Node)
    (h : σ.node i = some n) : ((σ.newGc v).2).node i = some n := by
  show lookupA (σ.heap ++ [(σ.nextId, Node.mk 1 Colour.Black false [] [] v)]) i = some n
  rw [lookupA_append]
  rw [show lookupA σ.heap i = some n from h]

theorem newGc_WF (σ : GcCtx) (v : AnyBox) (hw : WF σ) : WF (σ.newGc v).2 := by
  obtain ⟨h1, h2, h3, h4⟩ := hw
  refine ⟨h1, ?_, ?_, ?_⟩
  · intro i hi
    have h := h2 i hi
    obtain ⟨n, hn, hb⟩ := Option.map_eq_some'.mp h
    rw [newGc_node_pres σ v i n hn]
    simp [hb]
  · intro q hq hbuf
    rcases List.mem_append.mp hq with hq | hq
    · exact h3 q hq hbuf
    · simp only [List.mem_singleton] at hq
      rw [hq] at hbuf
      cases hbuf
  · intro q hq
    rcases List.mem_append.mp hq with hq | hq
    · exact Nat.lt_succ_of_lt (h4 q hq)
    · simp only [List.mem_singleton] at hq
      rw [hq]
      exact Nat.lt_succ_self _

theorem WF_unbuffer_filter (σ : GcCtx) (s : NodeId) (hw : WF σ) :
    WF { σ.modifyNode s (fun m => { m with buffered := false }) with
         roots := (σ.modifyNode s (fun m => { m with buffered := false })).roots.filter
           (fun x => decide (x ≠ s)) } := by
  obtain ⟨h1, h2, h3, h4⟩ := hw
  refine ⟨?_, ?_, ?_, ?_⟩
  · exact h1.filter _
  · intro i hi
    have hmem := List.mem_filter.mp hi
    have his : ¬ i = s := by simpa using hmem.2
    rw [GcCtx.node_setRoots, GcCtx.node_modifyNode, if_neg his]
    exact h2 i hmem.1
  · intro q hq hbuf
    obtain ⟨p, hp, hk, hv⟩ := mem_updateA _ σ.heap s q hq
    rcases hv with ⟨hqs, he⟩ | ⟨hqs, he⟩
    · refine List.mem_filter.mpr ⟨?_, by simpa using hqs⟩
      rw [← hk]
      refine h3 p hp ?_
      rw [he] at hbuf
      exact hbuf
    · rw [he] at hbuf
      cases hbuf
  · intro q hq
    obtain ⟨p, hp, hk, _⟩ := mem_updateA _ σ.heap s q hq
    rw [← hk]
    exact h4 p hp

theorem markRootsLoop_WF (fuel : Nat) : ∀ l σ σ', WF σ →
    GcCtx.markRootsLoop fuel σ l = some σ' → WF σ' := by
  intro l
  induction l with
  | nil =>
    intro σ σ' hw h
    simp only [GcCtx.markRootsLoop] at h
    simp at h
    exact h ▸ hw
  | cons s rest ih =>
    intro σ σ' hw h
    simp only [GcCtx.markRootsLoop] at h
    cases hn : σ.node s with
    | none =>
      rw [hn] at h
      exact ih σ σ' hw h
    | some n =>
      rw [hn] at h
      dsimp only at h
      by_cases hg : n.colour = Colour.Purple ∧ n.count > 0
      · rw [if_pos hg] at h
        cases hmg : GcCtx.markGray fuel σ s with
        | none => rw [hmg] at h; simp at h
        | some σ₁ =>
          rw [hmg] at h
          simp at h
          exact ih σ₁ σ' (WF_of_gframe ((markGray_gframe fuel).1 σ s σ₁ hmg) hw) h
      · rw [if_neg hg] at h
        have hwuf := WF_unbuffer_filter σ s hw
        by_cases hf : n.colour = Colour.Black ∧ n.count = 0
        · rw [if_pos hf] at h
          refine ih _ σ' ?_ h
          refine systemFree_WF s { n with buffered := false } ?_ rfl hwuf
          rw [GcCtx.node_setRoots, GcCtx.node_modifyNode, if_pos rfl, hn]
          rfl
        · rw [if_neg hf] at h
          exact ih _ σ' hwuf h

theorem scanRootsLoop_WF (fuel : Nat) : ∀ l σ σ', WF σ →
    GcCtx.scanRootsLoop fuel σ l = some σ' → WF σ' := by
  intro l
  induction l with
  | nil =>
    intro σ σ' hw h
    simp only [GcCtx.scanRootsLoop] at h
    simp at h
    exact h ▸ hw
  | cons s rest ih =>
    intro σ σ' hw h
    simp only [GcCtx.scanRootsLoop] at h
    cases hsc : GcCtx.scan fuel σ s with
    | none => rw [hsc] at h; simp at h
    | some σ₁ =>
      rw [hsc] at h
      simp at h
      exact ih σ₁ σ' (WF_of_gframe ((scan_gframe fuel).1 σ s σ₁ hsc) hw) h

theorem collectRootsLoop_end (fuel : Nat) : ∀ l σ σ',
    σ.roots = [] →
    (∀ p ∈ σ.heap, p.2.buffered = true → p.1 ∈ l) →
    (∀ p ∈ σ.heap, p.1 < σ.nextId) →
    GcCtx.collectRootsLoop fuel σ l = some σ' → WF σ' := by
  intro l
  induction l with
  | nil =>
    intro σ σ' hr hb hnx h
    simp only [GcCtx.collectRootsLoop] at h
    simp at h
    subst h
    refine ⟨by rw [hr]; exact List.nodup_nil, ?_, ?_, hnx⟩
    · intro i hi
      rw [hr] at hi
      cases hi
    · intro p hp hbuf
      exact absurd (hb p hp hbuf) (List.not_mem_nil _)
  | cons s rest ih =>
    intro σ σ' hr hb hnx h
    simp only [GcCtx.collectRootsLoop] at h
    cases hcw : GcCtx.collectWhite fuel
        (σ.modifyNode s (fun m => { m with buffered := false })) s with
    | none => rw [hcw] at h; simp at h
    | some σ₂ =>
      rw [hcw] at h
      simp at h
      have frame := (collectWhite_cwframe fuel).1 _ s σ₂ hcw
      refine ih σ₂ σ' ?_ ?_ ?_ h
      · rw [frame.roots_eq]
        exact hr
      · intro q hq hbuf
        obtain ⟨p₁, hp₁, hk₁, hb₁⟩ := frame.mem q hq
        obtain ⟨p₀, hp₀, hk₀, hv₀⟩ := mem_updateA _ σ.heap s p₁ hp₁
        rcases hv₀ with ⟨hps, he⟩ | ⟨hps, he⟩
        · have hbuf0 : p₀.2.buffered = true := by
            rw [← he]
            rw [← hb₁]
            exact hbuf
          have hmem := hb p₀ hp₀ hbuf0
          rcases List.mem_cons.mp hmem with h' | h'
          · exact absurd (hk₀ ▸ h') hps
          · rw [← hk₁, ← hk₀]
            exact h'
        · rw [he] at hb₁
          rw [hb₁] at hbuf
          cases hbuf
      · intro q hq
        obtain ⟨p₁, hp₁, hk₁, _⟩ := frame.mem q hq
        obtain ⟨p₀, hp₀, hk₀, _⟩ := mem_updateA _ σ.heap s p₁ hp₁
        rw [frame.next_eq, ← hk₁, ← hk₀]
        exact hnx p₀ hp₀

theorem collectCycles_WF (fuel : Nat) (σ σ' : GcCtx) (hw : WF σ)
    (h : GcCtx.collectCycles fuel σ = some σ') : WF σ' := by
  simp only [GcCtx.collectCycles] at h
  cases h1 : GcCtx.markRoots fuel σ with
  | none => rw [h1] at h; simp at h
  | some σ₁ =>
    rw [h1] at h
    simp at h
    cases h2 : GcCtx.scanRoots fuel σ₁ with
    | none => rw [h2] at h; simp at h
    | some σ₂ =>
      rw [h2] at h
      simp at h
      have hw₁ : WF σ₁ := markRootsLoop_WF fuel σ.roots σ σ₁ hw h1
      have hw₂ : WF σ₂ := scanRootsLoop_WF fuel σ₁.roots σ₁ σ₂ hw₁ h2
      refine collectRootsLoop_end fuel (σ₂.collectRootsEnter).1 (σ₂.collectRootsEnter).2 σ'
        rfl ?_ ?_ h
      · intro p hp hbuf
        exact hw₂.2.2.1 p hp hbuf
      · intro p hp
        exact hw₂.2.2.2 p hp

/-! ## C4 -/

/-- C4 (counterexample): the mirror between the `buffered` flag and
root-buffer membership does not hold at every moment of
`collect_cycles`.  From the well-formed reachable state
`purpleRootDemo`, passes one and two leave node 0 Black, buffered and in
the buffer; pass three (`collect_roots`) then clears the live buffer
*before* it clears the flags, so at the moment just after the clear
(`collectRootsEnter`) node 0 still has `buffered = true` while the buffer
is already empty -- the invariant `WF` fails there. -/
theorem bufferedMirror_breaks_mid_pass :
    WF purpleRootDemo ∧
    (GcCtx.markRoots 9 purpleRootDemo).bind (GcCtx.scanRoots 9) =
      some { roots := [0], autoCollectCyclesOnDecrement := true,
             heap := [(0, Node.mk 1 Colour.Black true [] [] (AnyBox.mk 0 0))],
             weaks := [], nextId := 1, freedLog := [] } ∧
    ¬ WF ((({ roots := [0], autoCollectCyclesOnDecrement := true,
              heap := [(0, Node.mk 1 Colour.Black true [] [] (AnyBox.mk 0 0))],
              weaks := [], nextId := 1, freedLog := [] } : GcCtx).collectRootsEnter).2) := by
  refine ⟨by decide, by decide, by decide⟩

/-- C4 (amended): before and after every public operation each node
occurs at most once in the context's root buffer and the `buffered` flag
mirrors buffer membership (together with the freshness bound on allocated
ids, this is the invariant `WF`); every public operation of the library
preserves it.  Within `collect_roots` the mirror can fail transiently,
because the pass empties the buffer before it resets the flags (see the
counterexample). -/
theorem WF_step {σ σ' : GcCtx} (hw : WF σ) (st : Step σ σ') : WF σ' := by
  cases st with
  | newGc _ v => exact newGc_WF σ v hw
  | gcClone _ s => exact WF_modify_pres s _ (fun _ => rfl) hw
  | gcDrop fuel _ _ s h =>
    simp only [GcCtx.gcDrop] at h
    cases hd : GcCtx.decrement fuel σ s with
    | none => rw [hd] at h; simp at h
    | some σm =>
      rw [hd] at h
      simp at h
      have hwm := (decrement_WF fuel).1 σ s σm hw hd
      by_cases ha : σm.autoCollectCyclesOnDecrement = true
      · rw [if_pos ha] at h
        exact collectCycles_WF fuel σm σ' hwm h
      · rw [if_neg ha] at h
        simp at h
        exact h ▸ hwm
  | collectCycles fuel _ _ h => exact collectCycles_WF fuel σ σ' hw h
  | derefGc _ => exact hw
  | downgrade _ s =>
    obtain ⟨h1, h2, h3, h4⟩ := hw
    exact ⟨h1, h2, h3, fun p hp => Nat.lt_succ_of_lt (h4 p hp)⟩
  | upgrade _ w =>
    unfold GcCtx.upgrade
    cases hwk : σ.weak w with
    | none => exact hw
    | some wn =>
      dsimp only
      cases hn : wn.node with
      | none => exact hw
      | some s => exact WF_modify_pres s _ (fun _ => rfl) hw
  | weakDrop _ w =>
    unfold GcCtx.weakDrop
    cases hwk : σ.weak w with
    | none => exact hw
    | some wn =>
      dsimp only
      cases hn : wn.node with
      | none => exact hw
      | some s =>
        exact WF_modify_pres s
          (fun n => { n with weakNodes := n.weakNodes.filter (fun x => decide (x ≠ w)) })
          (fun _ => rfl) hw
  | addChild _ p c =>
    refine WF_modify_pres p _ (fun n => ?_) hw
    by_cases h : c ∈ n.children <;> simp [h]
  | removeChild _ p c => exact WF_modify_pres p _ (fun _ => rfl) hw

/-- Witness for C4 at a concrete input: allocation from the fresh context
preserves the invariant. -/
theorem WF_step_w : WF ((GcCtx.new.newGc (AnyBox.mk 0 0)).2) :=
  WF_step (by decide) (Step.newGc GcCtx.new (AnyBox.mk 0 0))

/-! ## C3 -/

/-- C3 (counterexample): a member of an externally retained cycle does
not necessarily get its count restored by `collect_cycles`.  In
`rescueCexPre` the cycle {0, 1} (edges 0 → 1 → 0) retains one external
strong handle on node 0 (count 3 = handle + edge from 1 + edge from 2),
while {2, 3} is a garbage cycle with an extra edge 2 → 0 into the live
cycle.  `collect_cycles` frees 2 and 3 (correctly), no member of {0, 1}
is freed, but node 0 returns with count 2, not its pre-call 3: the trial
decrement through the dying edge 2 → 0 is deliberately never undone.
So the claim as stated is false. -/
theorem rescue_count_not_restored :
    rescueCexPre.node 0 = some (Node.mk 3 Colour.Black false [1] [] (AnyBox.mk 0 0)) ∧
    rescueCexPre.node 1 = some (Node.mk 1 Colour.Black false [0] [] (AnyBox.mk 0 0)) ∧
    GcCtx.collectCycles 40 rescueCexPre =
      some { roots := [], autoCollectCyclesOnDecrement := true,
             heap := [(0, Node.mk 2 Colour.Black false [1] [] (AnyBox.mk 0 0)),
                      (1, Node.mk 1 Colour.Black false [0] [] (AnyBox.mk 0 0))],
             weaks := [], nextId := 4, freedLog := [2, 3] } :=
  ⟨rfl, rfl, rfl⟩

/-- The two-node instance of the rescue property in fully closed form: a
heap consisting of the cycle 0 → 1 → 0 holding `eA` and `eB` external
strong handles with `eA + eB > 0`, node 0 having just been buffered as a
possible root.  No node is freed (the free log stays empty), both members
survive with their pre-call counts `1 + eA` and `1 + eB`, colours return
to Black and the root buffer empties: mark_gray's trial decrements are
exactly undone by scan_black's re-increments.  The general cycle of
arbitrary length is `nCycle_rescued` below. -/
theorem twoCycle_rescued (eA eB : Nat) (hpos : 0 < eA + eB) :
    GcCtx.collectCycles 12 (twoCycle eA eB) =
      some { roots := [], autoCollectCyclesOnDecrement := true,
             heap := [(0, Node.mk (1 + (eA : Int)) Colour.Black false [1] [] (AnyBox.mk 0 0)),
                      (1, Node.mk (1 + (eB : Int)) Colour.Black false [0] [] (AnyBox.mk 0 0))],
             weaks := [], nextId := 2, freedLog := [] } := by
  rcases Nat.eq_zero_or_pos eA with hA0 | hApos
  · subst hA0
    have hB : (0 : Int) < (eB : Int) := by omega
    simp [GcCtx.collectCycles, GcCtx.markRoots, GcCtx.markRootsLoop, GcCtx.markGray,
          GcCtx.markGrayKids, GcCtx.scanRoots, GcCtx.scanRootsLoop, GcCtx.scan, GcCtx.scanKids,
          GcCtx.scanBlack, GcCtx.scanBlackKids, GcCtx.collectRoots, GcCtx.collectRootsEnter,
          GcCtx.collectRootsLoop, GcCtx.collectWhite, GcCtx.collectWhiteKids, GcCtx.systemFree,
          GcCtx.node, GcCtx.modifyNode, lookupA, updateA, removeA, nullWeaks, twoCycle, hB]
    omega
  · have hA : (0 : Int) < (eA : Int) := by omega
    have hA1 : (0 : Int) < 1 + (eA : Int) := by omega
    simp [GcCtx.collectCycles, GcCtx.markRoots, GcCtx.markRootsLoop, GcCtx.markGray,
          GcCtx.markGrayKids, GcCtx.scanRoots, GcCtx.scanRootsLoop, GcCtx.scan, GcCtx.scanKids,
          GcCtx.scanBlack, GcCtx.scanBlackKids, GcCtx.collectRoots, GcCtx.collectRootsEnter,
          GcCtx.collectRootsLoop, GcCtx.collectWhite, GcCtx.collectWhiteKids, GcCtx.systemFree,
          GcCtx.node, GcCtx.modifyNode, lookupA, updateA, removeA, nullWeaks, twoCycle, hA, hA1]
    omega

/-- The two-node rescue at a concrete input: one external handle on
node 0, none on node 1. -/
theorem twoCycle_rescued_w :
    GcCtx.collectCycles 12 (twoCycle 1 0) =
      some { roots := [], autoCollectCyclesOnDecrement := true,
             heap := [(0, Node.mk (1 + ((1 : Nat) : Int)) Colour.Black false [1] []
                           (AnyBox.mk 0 0)),
                      (1, Node.mk (1 + ((0 : Nat) : Int)) Colour.Black false [0] []
                           (AnyBox.mk 0 0))],
             weaks := [], nextId := 2, freedLog := [] } :=
  twoCycle_rescued 1 0 (by decide)
/-! ## The simple n-cycle heap family -/

theorem lookupA_map_range {α : Type} (g : Nat → α) :
    ∀ (n j : Nat), lookupA ((List.range n).map (fun i => (i, g i))) j =
      if j < n then some (g j) else none := by
  intro n
  induction n with
  | zero => intro j; simp [lookupA]
  | succ n ih =>
    intro j
    rw [List.range_succ, List.map_append, lookupA_append, ih]
    by_cases h : j < n
    · have h' : j < n + 1 := by omega
      simp [h, h']
    · by_cases h2 : j = n
      · subst h2
        simp [h, lookupA]
      · have h' : ¬ j < n + 1 := by omega
        have h3 : ¬ n = j := by omega
        simp [h, h', lookupA, h2, h3]

theorem updateA_append {α : Type} (f : α → α) (l l' : List (NodeId × α)) (j : NodeId) :
    updateA f (l ++ l') j = updateA f l j ++ updateA f l' j := by
  induction l with
  | nil => rfl
  | cons p rest ih =>
    obtain ⟨k, v⟩ := p
    by_cases hkj : k = j <;> simp [updateA, hkj, ih]

theorem updateA_map_range {α : Type} (g : Nat → α) (f : α → α) :
    ∀ (n j : Nat), updateA f ((List.range n).map (fun i => (i, g i))) j =
      (List.range n).map (fun i => (i, if i = j then f (g i) else g i)) := by
  intro n
  induction n with
  | zero => intro j; rfl
  | succ n ih =>
    intro j
    rw [List.range_succ, List.map_append, updateA_append, ih, List.map_append]
    by_cases h : n = j <;> simp [updateA, h]

theorem cycSt_node (n : Nat) (col : Nat → Colour) (cnt : Nat → Int) (buf : Nat → Bool)
    (roots : List NodeId) (j : Nat) :
    (cycSt n col cnt buf roots).node j =
      if j < n then
        some (Node.mk (cnt j) (col j) (buf j) (cycChildren n j) [] (AnyBox.mk 0 0))
      else none := by
  show lookupA (cycHeap n col cnt buf) j = _
  unfold cycHeap
  exact lookupA_map_range
    (fun i => Node.mk (cnt i) (col i) (buf i) (cycChildren n i) [] (AnyBox.mk 0 0)) n j

theorem cycSt_congr (n : Nat) (col col' : Nat → Colour) (cnt cnt' : Nat → Int)
    (buf buf' : Nat → Bool) (roots : List NodeId)
    (hc : ∀ i, i < n → col i = col' i) (hn : ∀ i, i < n → cnt i = cnt' i)
    (hb : ∀ i, i < n → buf i = buf' i) :
    cycSt n col cnt buf roots = cycSt n col' cnt' buf' roots := by
  unfold cycSt cycHeap
  have hmap : (List.range n).map
      (fun i => ((i : NodeId), Node.mk (cnt i) (col i) (buf i) (cycChildren n i) [] (AnyBox.mk 0 0))) =
      (List.range n).map
      (fun i => ((i : NodeId), Node.mk (cnt' i) (col' i) (buf' i) (cycChildren n i) [] (AnyBox.mk 0 0))) := by
    apply List.map_congr_left
    intro i hi
    have hi' : i < n := List.mem_range.mp hi
    rw [hc i hi', hn i hi', hb i hi']
  rw [hmap]

theorem cycSt_modifyNode (n : Nat) (col : Nat → Colour) (cnt : Nat → Int) (buf : Nat → Bool)
    (roots : List NodeId) (j : Nat) (fn : Node → Node)
    (col' : Nat → Colour) (cnt' : Nat → Int) (buf' : Nat → Bool)
    (h : ∀ i, i < n →
      (if i = j then fn (Node.mk (cnt i) (col i) (buf i) (cycChildren n i) [] (AnyBox.mk 0 0))
       else Node.mk (cnt i) (col i) (buf i) (cycChildren n i) [] (AnyBox.mk 0 0)) =
      Node.mk (cnt' i) (col' i) (buf' i) (cycChildren n i) [] (AnyBox.mk 0 0)) :
    (cycSt n col cnt buf roots).modifyNode j fn = cycSt n col' cnt' buf' roots := by
  show ({ cycSt n col cnt buf roots with
            heap := updateA fn (cycSt n col cnt buf roots).heap j } : GcCtx) = _
  have hheap : updateA fn (cycSt n col cnt buf roots).heap j = cycHeap n col' cnt' buf' := by
    show updateA fn (cycHeap n col cnt buf) j = _
    unfold cycHeap
    rw [updateA_map_range
      (fun i => Node.mk (cnt i) (col i) (buf i) (cycChildren n i) [] (AnyBox.mk 0 0)) fn n j]
    apply List.map_congr_left
    intro i hi
    exact congrArg (Prod.mk (i : NodeId)) (h i (List.mem_range.mp hi))
  rw [hheap]
  rfl
/-! ## Single-step unfolding lemmas for the marking walkers -/

theorem markGray_stop (f : Nat) (σ : GcCtx) (s : NodeId) (nd : Node)
    (h : σ.node s = some nd) (hc : nd.colour = Colour.Gray) :
    GcCtx.markGray (f+1) σ s = some σ := by
  simp only [GcCtx.markGray]
  rw [h]
  dsimp only
  rw [if_pos hc]

theorem markGray_go (f : Nat) (σ : GcCtx) (s : NodeId) (nd : Node)
    (h : σ.node s = some nd) (hc : ¬ nd.colour = Colour.Gray) :
    GcCtx.markGray (f+1) σ s =
      GcCtx.markGrayKids f
        (σ.modifyNode s (fun m => { m with colour := Colour.Gray })) nd.children := by
  simp only [GcCtx.markGray]
  rw [h]
  dsimp only
  rw [if_neg hc]

theorem markGrayKids_one (f : Nat) (σ σ' : GcCtx) (t : NodeId)
    (h : GcCtx.markGray (f+1)
          (σ.modifyNode t (fun m => { m with count := m.count - 1 })) t = some σ') :
    GcCtx.markGrayKids (f+2) σ [t] = some σ' := by
  simp only [GcCtx.markGrayKids]
  rw [h]
  rw [show ∀ f', ((some σ' : Option GcCtx) >>= f') = f' σ' from fun _ => rfl]

theorem scanBlack_enter (f : Nat) (σ : GcCtx) (s : NodeId) (nd : Node)
    (h : σ.node s = some nd) :
    GcCtx.scanBlack (f+1) σ s =
      GcCtx.scanBlackKids f
        (σ.modifyNode s (fun m => { m with colour := Colour.Black })) nd.children := by
  simp only [GcCtx.scanBlack]
  rw [h]

theorem scanBlackKids_one_black (f : Nat) (σ : GcCtx) (t : NodeId) (m : Node)
    (h : (σ.modifyNode t (fun m' => { m' with count := m'.count + 1 })).node t = some m)
    (hm : m.colour = Colour.Black) :
    GcCtx.scanBlackKids (f+2) σ [t] =
      some (σ.modifyNode t (fun m' => { m' with count := m'.count + 1 })) := by
  simp only [GcCtx.scanBlackKids]
  rw [h]
  dsimp only
  rw [if_pos hm]

theorem scanBlackKids_one_go (f : Nat) (σ σ' : GcCtx) (t : NodeId) (m : Node)
    (h : (σ.modifyNode t (fun m' => { m' with count := m'.count + 1 })).node t = some m)
    (hm : ¬ m.colour = Colour.Black)
    (hrec : GcCtx.scanBlack (f+1)
      (σ.modifyNode t (fun m' => { m' with count := m'.count + 1 })) t = some σ') :
    GcCtx.scanBlackKids (f+2) σ [t] = some σ' := by
  simp only [GcCtx.scanBlackKids]
  rw [h]
  dsimp only
  rw [if_neg hm]
  rw [hrec]
  rw [show ∀ f', ((some σ' : Option GcCtx) >>= f') = f' σ' from fun _ => rfl]

theorem scan_gray_pos (f : Nat) (σ : GcCtx) (s : NodeId) (nd : Node)
    (h : σ.node s = some nd) (hc : nd.colour = Colour.Gray) (hp : nd.count > 0) :
    GcCtx.scan (f+1) σ s = GcCtx.scanBlack (f+1) σ s := by
  simp only [GcCtx.scan]
  rw [h]
  dsimp only
  rw [if_pos hc, if_pos hp]

theorem scan_gray_zero (f : Nat) (σ : GcCtx) (s : NodeId) (nd : Node)
    (h : σ.node s = some nd) (hc : nd.colour = Colour.Gray) (hp : ¬ nd.count > 0) :
    GcCtx.scan (f+1) σ s =
      GcCtx.scanKids f
        (σ.modifyNode s (fun m => { m with colour := Colour.White })) nd.children := by
  simp only [GcCtx.scan]
  rw [h]
  dsimp only
  rw [if_pos hc, if_neg hp]

theorem scanKids_one (f : Nat) (σ σ' : GcCtx) (t : NodeId)
    (h : GcCtx.scan (f+1) σ t = some σ') :
    GcCtx.scanKids (f+2) σ [t] = some σ' := by
  simp only [GcCtx.scanKids]
  rw [h]
  rw [show ∀ f', ((some σ' : Option GcCtx) >>= f') = f' σ' from fun _ => rfl]

theorem collectWhite_skip (f : Nat) (σ : GcCtx) (s : NodeId) (nd : Node)
    (h : σ.node s = some nd) (hc : ¬ (nd.colour = Colour.White ∧ nd.buffered = false)) :
    GcCtx.collectWhite (f+1) σ s = some σ := by
  simp only [GcCtx.collectWhite]
  rw [h]
  dsimp only
  rw [if_neg hc]
/-! ## `mark_gray` around the n-cycle -/

theorem markGray_chain (n : Nat) (e : Nat → Nat) (hn : 2 ≤ n) :
    ∀ d f, d ≤ n - 2 →
      GcCtx.markGray (f + 2*d + 3)
        (cycSt n (mgCol (n-1-d)) (mgCnt e (n-1-d)) cycBuf [0]) (n-1-d) =
      some (cycSt n grayCol (eCnt e) cycBuf [0]) := by
  intro d
  induction d with
  | zero =>
    intro f _
    simp only [Nat.sub_zero]
    rw [show f + 2*0 + 3 = ((f+1)+1) + 1 by omega]
    have hlt : n - 1 < n := by omega
    have hnode : (cycSt n (mgCol (n-1)) (mgCnt e (n-1)) cycBuf [0]).node (n-1) =
        some (Node.mk (mgCnt e (n-1) (n-1)) (mgCol (n-1) (n-1)) (cycBuf (n-1))
          (cycChildren n (n-1)) [] (AnyBox.mk 0 0)) := by
      rw [cycSt_node, if_pos hlt]
    have hcol : ¬ mgCol (n-1) (n-1) = Colour.Gray := by
      have h1 : ¬ (n-1 < n-1) := by omega
      have h2 : ¬ (n-1 = 0) := by omega
      simp [mgCol, h1, h2]
    rw [markGray_go ((f+1)+1) _ _ _ hnode hcol]
    dsimp only
    have hch : cycChildren n (n-1) = [0] := by
      unfold cycChildren
      rw [Nat.sub_add_cancel (by omega : 1 ≤ n), Nat.mod_self]
    rw [hch]
    have hmod1 : (cycSt n (mgCol (n-1)) (mgCnt e (n-1)) cycBuf [0]).modifyNode (n-1)
        (fun m => { m with colour := Colour.Gray }) =
        cycSt n (mgCol n) (mgCnt e (n-1)) cycBuf [0] := by
      apply cycSt_modifyNode
      intro i hi
      by_cases hik : i = n-1
      · rw [if_pos hik]
        subst hik
        simp [mgCol, hlt]
      · rw [if_neg hik]
        by_cases hlt2 : i < n-1
        · simp [mgCol, hlt2, show i < n by omega]
        · simp [mgCol, hlt2, show ¬ i < n by omega, show ¬ i = 0 by omega]
    rw [hmod1]
    apply markGrayKids_one
    have hmod2 : (cycSt n (mgCol n) (mgCnt e (n-1)) cycBuf [0]).modifyNode 0
        (fun m => { m with count := m.count - 1 }) =
        cycSt n (mgCol n) (eCnt e) cycBuf [0] := by
      apply cycSt_modifyNode
      intro i hi
      by_cases hik : i = 0
      · rw [if_pos hik]
        subst hik
        simp [mgCnt, eCnt, show ¬ (1 ≤ 0) by omega]
      · rw [if_neg hik]
        simp [mgCnt, eCnt, show 1 ≤ i by omega, show i ≤ n-1 by omega]
    rw [hmod2]
    rw [markGray_stop _ _ 0
      (Node.mk (eCnt e 0) (mgCol n 0) (cycBuf 0) (cycChildren n 0) [] (AnyBox.mk 0 0))
      (by rw [cycSt_node, if_pos (show 0 < n by omega)])
      (by simp [mgCol, show 0 < n by omega])]
    exact congrArg some (cycSt_congr n (mgCol n) grayCol (eCnt e) (eCnt e) cycBuf cycBuf [0]
      (fun i hi => by simp [mgCol, grayCol, hi]) (fun i _ => rfl) (fun i _ => rfl))
  | succ d ih =>
    intro f hd
    have hk1 : 1 ≤ n-1-(d+1) := by omega
    have hk2 : n-1-(d+1) < n := by omega
    rw [show f + 2*(d+1) + 3 = ((f + 2*d + 3) + 1) + 1 by omega]
    have hnode : (cycSt n (mgCol (n-1-(d+1))) (mgCnt e (n-1-(d+1))) cycBuf [0]).node (n-1-(d+1)) =
        some (Node.mk (mgCnt e (n-1-(d+1)) (n-1-(d+1))) (mgCol (n-1-(d+1)) (n-1-(d+1)))
          (cycBuf (n-1-(d+1))) (cycChildren n (n-1-(d+1))) [] (AnyBox.mk 0 0)) := by
      rw [cycSt_node, if_pos hk2]
    have hcol : ¬ mgCol (n-1-(d+1)) (n-1-(d+1)) = Colour.Gray := by
      have h1 : ¬ (n-1-(d+1) < n-1-(d+1)) := by omega
      have h2 : ¬ (n-1-(d+1) = 0) := by omega
      simp [mgCol, h1, h2]
    rw [markGray_go ((f + 2*d + 3) + 1) _ _ _ hnode hcol]
    dsimp only
    have hch : cycChildren n (n-1-(d+1)) = [n-1-d] := by
      unfold cycChildren
      rw [show n-1-(d+1)+1 = n-1-d by omega, Nat.mod_eq_of_lt (by omega)]
    rw [hch]
    have hmod1 : (cycSt n (mgCol (n-1-(d+1))) (mgCnt e (n-1-(d+1))) cycBuf [0]).modifyNode
        (n-1-(d+1)) (fun m => { m with colour := Colour.Gray }) =
        cycSt n (mgCol (n-1-d)) (mgCnt e (n-1-(d+1))) cycBuf [0] := by
      apply cycSt_modifyNode
      intro i hi
      by_cases hik : i = n-1-(d+1)
      · rw [if_pos hik]
        subst hik
        simp [mgCol, show n-1-(d+1) < n-1-d by omega]
      · rw [if_neg hik]
        by_cases hlt2 : i < n-1-(d+1)
        · simp [mgCol, hlt2, show i < n-1-d by omega]
        · simp [mgCol, hlt2, show ¬ i < n-1-d by omega, show ¬ i = 0 by omega]
    rw [hmod1]
    apply markGrayKids_one
    have hmod2 : (cycSt n (mgCol (n-1-d)) (mgCnt e (n-1-(d+1))) cycBuf [0]).modifyNode
        (n-1-d) (fun m => { m with count := m.count - 1 }) =
        cycSt n (mgCol (n-1-d)) (mgCnt e (n-1-d)) cycBuf [0] := by
      apply cycSt_modifyNode
      intro i hi
      by_cases hik : i = n-1-d
      · rw [if_pos hik]
        subst hik
        simp [mgCnt, show ¬ (1 ≤ n-1-d ∧ n-1-d ≤ n-1-(d+1)) by omega,
          show (1 ≤ n-1-d ∧ n-1-d ≤ n-1-d) by omega]
        omega
      · rw [if_neg hik]
        by_cases h1 : 1 ≤ i ∧ i ≤ n-1-(d+1)
        · simp [mgCnt, h1, show (1 ≤ i ∧ i ≤ n-1-d) by omega]
        · simp [mgCnt, h1, show ¬ (1 ≤ i ∧ i ≤ n-1-d) by omega]
    rw [hmod2]
    exact ih f (by omega)
/-! ## `scan_black` around the n-cycle: the wrap over the whitened prefix -/

theorem scanBlack_white_chain (n m : Nat) (e : Nat → Nat) (hn : 2 ≤ n) (hm : 1 ≤ m)
    (hmn : m ≤ n - 1) :
    ∀ d f, d ≤ m - 1 →
      GcCtx.scanBlack (f + 2*d + 3)
        (cycSt n (sbWhiteCol m (m-1-d)) (sbWhiteCnt e m (m-1-d)) cycBuf [0]) (m-1-d) =
      some (cycSt n blackCol (doneCnt e) cycBuf [0]) := by
  intro d
  induction d with
  | zero =>
    intro f _
    simp only [Nat.sub_zero]
    rw [show f + 2*0 + 3 = (f+2) + 1 by omega]
    have hq : m - 1 < n := by omega
    rw [scanBlack_enter (f+2) _ _
      (Node.mk (sbWhiteCnt e m (m-1) (m-1)) (sbWhiteCol m (m-1) (m-1)) (cycBuf (m-1))
        (cycChildren n (m-1)) [] (AnyBox.mk 0 0))
      (by rw [cycSt_node, if_pos hq])]
    dsimp only
    have hch : cycChildren n (m-1) = [m] := by
      unfold cycChildren
      rw [show m-1+1 = m by omega, Nat.mod_eq_of_lt (by omega)]
    rw [hch]
    have hmod1 : (cycSt n (sbWhiteCol m (m-1)) (sbWhiteCnt e m (m-1)) cycBuf [0]).modifyNode
        (m-1) (fun m' => { m' with colour := Colour.Black }) =
        cycSt n (sbWhiteCol m m) (sbWhiteCnt e m (m-1)) cycBuf [0] := by
      apply cycSt_modifyNode
      intro i hi
      simp only [sbWhiteCol]
      split_ifs <;> first | rfl | (simp [Node.mk.injEq] <;> omega)
    rw [hmod1]
    have hmod2 : (cycSt n (sbWhiteCol m m) (sbWhiteCnt e m (m-1)) cycBuf [0]).modifyNode
        m (fun m' => { m' with count := m'.count + 1 }) =
        cycSt n (sbWhiteCol m m) (doneCnt e) cycBuf [0] := by
      apply cycSt_modifyNode
      intro i hi
      simp only [sbWhiteCnt, doneCnt]
      split_ifs <;> first | rfl | (simp [Node.mk.injEq] <;> omega)
    rw [scanBlackKids_one_black f _ m
      (Node.mk (doneCnt e m) (sbWhiteCol m m m) (cycBuf m) (cycChildren n m) [] (AnyBox.mk 0 0))
      (by rw [hmod2, cycSt_node, if_pos (show m < n by omega)])
      (by simp [sbWhiteCol, show ¬ m < m by omega])]
    rw [hmod2]
    refine congrArg some (cycSt_congr n (sbWhiteCol m m) blackCol (doneCnt e) (doneCnt e)
      cycBuf cycBuf [0] (fun i hi => ?_) (fun i _ => rfl) (fun i _ => rfl))
    simp only [sbWhiteCol, blackCol]
    split_ifs <;> rfl
  | succ d ih =>
    intro f hd
    have hq2 : m-1-(d+1) < n := by omega
    rw [show f + 2*(d+1) + 3 = ((f + 2*d + 3) + 1) + 1 by omega]
    rw [scanBlack_enter ((f + 2*d + 3) + 1) _ _
      (Node.mk (sbWhiteCnt e m (m-1-(d+1)) (m-1-(d+1))) (sbWhiteCol m (m-1-(d+1)) (m-1-(d+1)))
        (cycBuf (m-1-(d+1))) (cycChildren n (m-1-(d+1))) [] (AnyBox.mk 0 0))
      (by rw [cycSt_node, if_pos hq2])]
    dsimp only
    have hch : cycChildren n (m-1-(d+1)) = [m-1-d] := by
      unfold cycChildren
      rw [show m-1-(d+1)+1 = m-1-d by omega, Nat.mod_eq_of_lt (by omega)]
    rw [hch]
    have hmod1 : (cycSt n (sbWhiteCol m (m-1-(d+1))) (sbWhiteCnt e m (m-1-(d+1))) cycBuf
        [0]).modifyNode (m-1-(d+1)) (fun m' => { m' with colour := Colour.Black }) =
        cycSt n (sbWhiteCol m (m-1-d)) (sbWhiteCnt e m (m-1-(d+1))) cycBuf [0] := by
      apply cycSt_modifyNode
      intro i hi
      simp only [sbWhiteCol]
      split_ifs <;> first | rfl | (simp [Node.mk.injEq] <;> omega)
    rw [hmod1]
    have hmod2 : (cycSt n (sbWhiteCol m (m-1-d)) (sbWhiteCnt e m (m-1-(d+1))) cycBuf
        [0]).modifyNode (m-1-d) (fun m' => { m' with count := m'.count + 1 }) =
        cycSt n (sbWhiteCol m (m-1-d)) (sbWhiteCnt e m (m-1-d)) cycBuf [0] := by
      apply cycSt_modifyNode
      intro i hi
      simp only [sbWhiteCnt]
      split_ifs <;> first | rfl | (simp [Node.mk.injEq] <;> omega)
    refine scanBlackKids_one_go _ _ _ _
      (Node.mk (sbWhiteCnt e m (m-1-d) (m-1-d)) (sbWhiteCol m (m-1-d) (m-1-d))
        (cycBuf (m-1-d)) (cycChildren n (m-1-d)) [] (AnyBox.mk 0 0)) ?_ ?_ ?_
    · rw [hmod2, cycSt_node, if_pos (show m-1-d < n by omega)]
    · simp [sbWhiteCol, show ¬ m-1-d < m-1-d by omega, show m-1-d < m by omega]
    · rw [hmod2]
      exact ih f (by omega)
/-! ## `scan_black` around the n-cycle: the walk over the Gray arc -/

theorem scanBlack_gray_chain (n m : Nat) (e : Nat → Nat) (hn : 2 ≤ n) (hmn : m ≤ n - 1) :
    ∀ d f, d ≤ n - 1 - m →
      GcCtx.scanBlack (f + 2*d + 2*m + 8)
        (cycSt n (sbGrayCol m (n-1-d)) (sbGrayCnt e m (n-1-d)) cycBuf [0]) (n-1-d) =
      some (cycSt n blackCol (doneCnt e) cycBuf [0]) := by
  intro d
  induction d with
  | zero =>
    intro f _
    simp only [Nat.sub_zero]
    rw [show f + 2*0 + 2*m + 8 = (f + 2*m + 7) + 1 by omega]
    have hq : n - 1 < n := by omega
    rw [scanBlack_enter (f + 2*m + 7) _ _
      (Node.mk (sbGrayCnt e m (n-1) (n-1)) (sbGrayCol m (n-1) (n-1)) (cycBuf (n-1))
        (cycChildren n (n-1)) [] (AnyBox.mk 0 0))
      (by rw [cycSt_node, if_pos hq])]
    dsimp only
    have hch : cycChildren n (n-1) = [0] := by
      unfold cycChildren
      rw [Nat.sub_add_cancel (by omega : 1 ≤ n), Nat.mod_self]
    rw [hch]
    have hmod1 : (cycSt n (sbGrayCol m (n-1)) (sbGrayCnt e m (n-1)) cycBuf [0]).modifyNode
        (n-1) (fun m' => { m' with colour := Colour.Black }) =
        cycSt n (sbGrayCol m n) (sbGrayCnt e m (n-1)) cycBuf [0] := by
      apply cycSt_modifyNode
      intro i hi
      simp only [sbGrayCol]
      split_ifs <;> first | rfl | (simp [Node.mk.injEq] <;> omega)
    rw [hmod1]
    have hmod2 : (cycSt n (sbGrayCol m n) (sbGrayCnt e m (n-1)) cycBuf [0]).modifyNode
        0 (fun m' => { m' with count := m'.count + 1 }) =
        cycSt n (sbGrayCol m n) (fun i => if i = 0 then (e i : Int) + 1
          else sbGrayCnt e m (n-1) i) cycBuf [0] := by
      apply cycSt_modifyNode
      intro i hi
      simp only [sbGrayCnt]
      split_ifs <;> first | rfl | (simp [Node.mk.injEq] <;> omega)
    by_cases hm0 : m = 0
    · rw [scanBlackKids_one_black (f + 2*m + 5) _ 0
        (Node.mk ((e 0 : Int) + 1) (sbGrayCol m n 0) (cycBuf 0) (cycChildren n 0) []
          (AnyBox.mk 0 0))
        (by rw [hmod2, cycSt_node, if_pos (show 0 < n by omega)]
            simp)
        (by simp [sbGrayCol, hm0, show 0 < n by omega])]
      rw [hmod2]
      refine congrArg some (cycSt_congr n (sbGrayCol m n) blackCol _ (doneCnt e)
        cycBuf cycBuf [0] (fun i hi => ?_) (fun i hi => ?_) (fun i _ => rfl))
      · simp only [sbGrayCol, blackCol]
        split_ifs <;> first | rfl | (exfalso; omega)
      · simp only [sbGrayCnt, doneCnt]
        split_ifs <;> omega
    · refine scanBlackKids_one_go _ _ _ _
        (Node.mk ((e 0 : Int) + 1) (sbGrayCol m n 0) (cycBuf 0) (cycChildren n 0) []
          (AnyBox.mk 0 0)) ?_ ?_ ?_
      · rw [hmod2, cycSt_node, if_pos (show 0 < n by omega)]
        simp
      · simp [sbGrayCol, show 0 < m by omega]
      · rw [hmod2]
        have hwc := scanBlack_white_chain n m e hn (by omega) hmn (m-1) (f+5) (by omega)
        rw [show m-1-(m-1) = 0 by omega] at hwc
        rw [show (f+5) + 2*(m-1) + 3 = (f + 2*m + 5) + 1 by omega] at hwc
        have hst : cycSt n (sbGrayCol m n)
            (fun i => if i = 0 then (e i : Int) + 1 else sbGrayCnt e m (n-1) i) cycBuf [0] =
            cycSt n (sbWhiteCol m 0) (sbWhiteCnt e m 0) cycBuf [0] := by
          refine cycSt_congr n _ _ _ _ _ _ [0] (fun i hi => ?_) (fun i hi => ?_)
            (fun i _ => rfl)
          · simp only [sbGrayCol, sbWhiteCol]
            split_ifs <;> first | rfl | (exfalso; omega)
          · simp only [sbGrayCnt, sbWhiteCnt]
            split_ifs <;> omega
        rw [hst]
        exact hwc
  | succ d ih =>
    intro f hd
    have hq2 : n-1-(d+1) < n := by omega
    rw [show f + 2*(d+1) + 2*m + 8 = ((f + 2*d + 2*m + 8) + 1) + 1 by omega]
    rw [scanBlack_enter ((f + 2*d + 2*m + 8) + 1) _ _
      (Node.mk (sbGrayCnt e m (n-1-(d+1)) (n-1-(d+1))) (sbGrayCol m (n-1-(d+1)) (n-1-(d+1)))
        (cycBuf (n-1-(d+1))) (cycChildren n (n-1-(d+1))) [] (AnyBox.mk 0 0))
      (by rw [cycSt_node, if_pos hq2])]
    dsimp only
    have hch : cycChildren n (n-1-(d+1)) = [n-1-d] := by
      unfold cycChildren
      rw [show n-1-(d+1)+1 = n-1-d by omega, Nat.mod_eq_of_lt (by omega)]
    rw [hch]
    have hmod1 : (cycSt n (sbGrayCol m (n-1-(d+1))) (sbGrayCnt e m (n-1-(d+1))) cycBuf
        [0]).modifyNode (n-1-(d+1)) (fun m' => { m' with colour := Colour.Black }) =
        cycSt n (sbGrayCol m (n-1-d)) (sbGrayCnt e m (n-1-(d+1))) cycBuf [0] := by
      apply cycSt_modifyNode
      intro i hi
      simp only [sbGrayCol]
      split_ifs <;> first | rfl | (simp [Node.mk.injEq] <;> omega)
    rw [hmod1]
    have hmod2 : (cycSt n (sbGrayCol m (n-1-d)) (sbGrayCnt e m (n-1-(d+1))) cycBuf
        [0]).modifyNode (n-1-d) (fun m' => { m' with count := m'.count + 1 }) =
        cycSt n (sbGrayCol m (n-1-d)) (sbGrayCnt e m (n-1-d)) cycBuf [0] := by
      apply cycSt_modifyNode
      intro i hi
      simp only [sbGrayCnt]
      split_ifs <;> first | rfl | (simp [Node.mk.injEq] <;> omega)
    refine scanBlackKids_one_go _ _ _ _
      (Node.mk (sbGrayCnt e m (n-1-d) (n-1-d)) (sbGrayCol m (n-1-d) (n-1-d))
        (cycBuf (n-1-d)) (cycChildren n (n-1-d)) [] (AnyBox.mk 0 0)) ?_ ?_ ?_
    · rw [hmod2, cycSt_node, if_pos (show n-1-d < n by omega)]
    · simp [sbGrayCol, show ¬ n-1-d < m by omega, show ¬ n-1-d < n-1-d by omega]
    · rw [hmod2]
      exact ih f (by omega)
/-! ## `scan` down the whitened prefix of the n-cycle -/

theorem scan_whiten_chain (n m : Nat) (e : Nat → Nat) (hn : 2 ≤ n) (hmn : m ≤ n - 1)
    (hem : 0 < e m) (hzero : ∀ j, j < m → e j = 0) :
    ∀ d f, d ≤ m →
      GcCtx.scan (f + 2*d + 2*n + 12) (cycSt n (scanWCol (m-d)) (eCnt e) cycBuf [0]) (m-d) =
      some (cycSt n blackCol (doneCnt e) cycBuf [0]) := by
  intro d
  induction d with
  | zero =>
    intro f _
    simp only [Nat.sub_zero]
    rw [show f + 2*0 + 2*n + 12 = (f + 2*n + 11) + 1 by omega]
    rw [scan_gray_pos (f + 2*n + 11) _ m
      (Node.mk (eCnt e m) (scanWCol m m) (cycBuf m) (cycChildren n m) [] (AnyBox.mk 0 0))
      (by rw [cycSt_node, if_pos (show m < n by omega)])
      (by simp [scanWCol, show ¬ m < m by omega])
      (by show (e m : Int) > 0
          omega)]
    have hgc := scanBlack_gray_chain n m e hn hmn (n-1-m) (f+6) (by omega)
    rw [show n-1-(n-1-m) = m by omega] at hgc
    rw [show (f+6) + 2*(n-1-m) + 2*m + 8 = (f + 2*n + 11) + 1 by omega] at hgc
    have hst : cycSt n (scanWCol m) (eCnt e) cycBuf [0] =
        cycSt n (sbGrayCol m m) (sbGrayCnt e m m) cycBuf [0] := by
      refine cycSt_congr n _ _ _ _ _ _ [0] (fun i hi => ?_) (fun i hi => ?_) (fun i _ => rfl)
      · simp only [scanWCol, sbGrayCol]
        split_ifs <;> first | rfl | (exfalso; omega)
      · simp only [eCnt, sbGrayCnt]
        split_ifs <;> omega
    rw [hst]
    exact hgc
  | succ d ih =>
    intro f hd
    have hj : m-(d+1) < n := by omega
    rw [show f + 2*(d+1) + 2*n + 12 = ((f + 2*d + 2*n + 12) + 1) + 1 by omega]
    rw [scan_gray_zero ((f + 2*d + 2*n + 12) + 1) _ (m-(d+1))
      (Node.mk (eCnt e (m-(d+1))) (scanWCol (m-(d+1)) (m-(d+1))) (cycBuf (m-(d+1)))
        (cycChildren n (m-(d+1))) [] (AnyBox.mk 0 0))
      (by rw [cycSt_node, if_pos hj])
      (by simp [scanWCol, show ¬ m-(d+1) < m-(d+1) by omega])
      (by show ¬ ((e (m-(d+1)) : Int) > 0)
          have := hzero (m-(d+1)) (by omega)
          omega)]
    dsimp only
    have hch : cycChildren n (m-(d+1)) = [m-d] := by
      unfold cycChildren
      rw [show m-(d+1)+1 = m-d by omega, Nat.mod_eq_of_lt (by omega)]
    rw [hch]
    have hmod : (cycSt n (scanWCol (m-(d+1))) (eCnt e) cycBuf [0]).modifyNode
        (m-(d+1)) (fun m' => { m' with colour := Colour.White }) =
        cycSt n (scanWCol (m-d)) (eCnt e) cycBuf [0] := by
      apply cycSt_modifyNode
      intro i hi
      simp only [scanWCol]
      split_ifs <;> first | rfl | (simp [Node.mk.injEq] <;> omega)
    rw [hmod]
    apply scanKids_one
    exact ih f (by omega)
/-! ## Single-root pass lemmas -/

theorem markRootsLoop_one_go (f : Nat) (σ σ' : GcCtx) (s : NodeId) (nd : Node)
    (h : σ.node s = some nd) (hc : nd.colour = Colour.Purple ∧ nd.count > 0)
    (hmg : GcCtx.markGray f σ s = some σ') :
    GcCtx.markRootsLoop f σ [s] = some σ' := by
  simp only [GcCtx.markRootsLoop]
  rw [h]
  dsimp only
  rw [if_pos hc, hmg]
  rw [show ∀ f', ((some σ' : Option GcCtx) >>= f') = f' σ' from fun _ => rfl]

theorem scanRootsLoop_one (f : Nat) (σ σ' : GcCtx) (s : NodeId)
    (h : GcCtx.scan f σ s = some σ') :
    GcCtx.scanRootsLoop f σ [s] = some σ' := by
  simp only [GcCtx.scanRootsLoop]
  rw [h]
  rw [show ∀ f', ((some σ' : Option GcCtx) >>= f') = f' σ' from fun _ => rfl]

theorem collectRootsLoop_one (f : Nat) (σ σ' : GcCtx) (s : NodeId)
    (h : GcCtx.collectWhite f
      (σ.modifyNode s (fun m => { m with buffered := false })) s = some σ') :
    GcCtx.collectRootsLoop f σ [s] = some σ' := by
  simp only [GcCtx.collectRootsLoop]
  rw [h]
  rw [show ∀ f', ((some σ' : Option GcCtx) >>= f') = f' σ' from fun _ => rfl]

/-! ## The three passes of `collect_cycles` on the n-cycle -/

theorem nCycle_markRoots (n : Nat) (e : Nat → Nat) (hn : 2 ≤ n) (f : Nat) :
    GcCtx.markRoots (f + 4*n + 16) (nCycle n e) =
      some (cycSt n grayCol (eCnt e) cycBuf [0]) := by
  unfold GcCtx.markRoots
  rw [show (nCycle n e).roots = [0] from rfl]
  refine markRootsLoop_one_go _ _ _ 0
    (Node.mk (1 + (e 0 : Int)) (if 0 = 0 then Colour.Purple else Colour.Black) (cycBuf 0)
      (cycChildren n 0) [] (AnyBox.mk 0 0))
    (by rw [show (nCycle n e).node 0 = _ from cycSt_node n _ _ _ _ 0,
          if_pos (show 0 < n by omega)])
    (by refine ⟨by simp, ?_⟩
        show (1 : Int) + (e 0 : Int) > 0
        omega) ?_
  have hst : nCycle n e = cycSt n (mgCol 0) (mgCnt e 0) cycBuf [0] := by
    refine cycSt_congr n _ _ _ _ _ _ [0] (fun i hi => ?_) (fun i hi => ?_) (fun i _ => rfl)
    · simp only [mgCol]
      split_ifs <;> first | rfl | (exfalso; omega)
    · simp only [mgCnt]
      split_ifs <;> omega
  rw [hst]
  rw [show f + 4*n + 16 = ((f + 4*n + 14) + 1) + 1 by omega]
  rw [markGray_go ((f + 4*n + 14) + 1) _ _
    (Node.mk (mgCnt e 0 0) (mgCol 0 0) (cycBuf 0) (cycChildren n 0) [] (AnyBox.mk 0 0))
    (by rw [cycSt_node, if_pos (show 0 < n by omega)])
    (by simp [mgCol])]
  dsimp only
  have hch : cycChildren n 0 = [1] := by
    unfold cycChildren
    rw [Nat.mod_eq_of_lt (by omega)]
  rw [hch]
  have hmod1 : (cycSt n (mgCol 0) (mgCnt e 0) cycBuf [0]).modifyNode 0
      (fun m => { m with colour := Colour.Gray }) =
      cycSt n (mgCol 1) (mgCnt e 0) cycBuf [0] := by
    apply cycSt_modifyNode
    intro i hi
    simp only [mgCol]
    split_ifs <;> first | rfl | (simp [Node.mk.injEq] <;> omega)
  rw [hmod1]
  apply markGrayKids_one
  have hmod2 : (cycSt n (mgCol 1) (mgCnt e 0) cycBuf [0]).modifyNode 1
      (fun m => { m with count := m.count - 1 }) =
      cycSt n (mgCol 1) (mgCnt e 1) cycBuf [0] := by
    apply cycSt_modifyNode
    intro i hi
    simp only [mgCnt]
    split_ifs <;> first | rfl | (simp [Node.mk.injEq] <;> omega)
  rw [hmod2]
  have hch2 := markGray_chain n e hn (n-2) (f + 2*n + 15) (by omega)
  rw [show n-1-(n-2) = 1 by omega] at hch2
  rw [show (f + 2*n + 15) + 2*(n-2) + 3 = (f + 4*n + 13) + 1 by omega] at hch2
  exact hch2

theorem nCycle_scanRoots (n m : Nat) (e : Nat → Nat) (hn : 2 ≤ n) (hmn : m ≤ n - 1)
    (hem : 0 < e m) (hzero : ∀ j, j < m → e j = 0) (f : Nat) :
    GcCtx.scanRoots (f + 4*n + 16) (cycSt n grayCol (eCnt e) cycBuf [0]) =
      some (cycSt n blackCol (doneCnt e) cycBuf [0]) := by
  unfold GcCtx.scanRoots
  rw [show (cycSt n grayCol (eCnt e) cycBuf [0]).roots = [0] from rfl]
  apply scanRootsLoop_one
  have hsc := scan_whiten_chain n m e hn hmn hem hzero m (f + 2*(n-m) + 4) (by omega)
  rw [show m - m = 0 by omega] at hsc
  rw [show (f + 2*(n-m) + 4) + 2*m + 2*n + 12 = f + 4*n + 16 by omega] at hsc
  have hst : cycSt n grayCol (eCnt e) cycBuf [0] =
      cycSt n (scanWCol 0) (eCnt e) cycBuf [0] := by
    refine cycSt_congr n _ _ _ _ _ _ [0] (fun i hi => ?_) (fun i _ => rfl) (fun i _ => rfl)
    simp [grayCol, scanWCol]
  rw [hst]
  exact hsc

theorem nCycle_collectRoots (n : Nat) (e : Nat → Nat) (hn : 2 ≤ n) (f : Nat) :
    GcCtx.collectRoots (f + 4*n + 16) (cycSt n blackCol (doneCnt e) cycBuf [0]) =
      some (cycSt n blackCol (doneCnt e) noBuf []) := by
  unfold GcCtx.collectRoots GcCtx.collectRootsEnter
  dsimp only
  rw [show ({ cycSt n blackCol (doneCnt e) cycBuf [0] with roots := [] } : GcCtx) =
        cycSt n blackCol (doneCnt e) cycBuf [] from rfl]
  apply collectRootsLoop_one
  have hmodb : (cycSt n blackCol (doneCnt e) cycBuf []).modifyNode 0
      (fun m => { m with buffered := false }) =
      cycSt n blackCol (doneCnt e) noBuf [] := by
    apply cycSt_modifyNode
    intro i hi
    simp only [cycBuf, noBuf]
    split_ifs <;> first | rfl | (simp [Node.mk.injEq] <;> omega)
  rw [hmodb]
  rw [show f + 4*n + 16 = (f + 4*n + 15) + 1 by omega]
  exact collectWhite_skip (f + 4*n + 15) _ 0
    (Node.mk (doneCnt e 0) (blackCol 0) (noBuf 0) (cycChildren n 0) [] (AnyBox.mk 0 0))
    (by rw [cycSt_node, if_pos (show 0 < n by omega)])
    (by simp [blackCol, noBuf])

theorem nCycle_collect (n m : Nat) (e : Nat → Nat) (hn : 2 ≤ n) (hmn : m ≤ n - 1)
    (hem : 0 < e m) (hzero : ∀ j, j < m → e j = 0) (f : Nat) :
    GcCtx.collectCycles (f + 4*n + 16) (nCycle n e) =
      some (cycSt n blackCol (doneCnt e) noBuf []) := by
  unfold GcCtx.collectCycles
  rw [nCycle_markRoots n e hn f]
  rw [show ∀ f', ((some (cycSt n grayCol (eCnt e) cycBuf [0]) : Option GcCtx) >>= f') =
        f' (cycSt n grayCol (eCnt e) cycBuf [0]) from fun _ => rfl]
  rw [nCycle_scanRoots n m e hn hmn hem hzero f]
  rw [show ∀ f', ((some (cycSt n blackCol (doneCnt e) cycBuf [0]) : Option GcCtx) >>= f') =
        f' (cycSt n blackCol (doneCnt e) cycBuf [0]) from fun _ => rfl]
  exact nCycle_collectRoots n e hn f
/-! ## The self-loop (n = 1) case -/

theorem nCycle_one_collect (e : Nat → Nat) (he : 0 < e 0) (f : Nat) :
    GcCtx.collectCycles (f + 20) (nCycle 1 e) =
      some (cycSt 1 blackCol (doneCnt e) noBuf []) := by
  have h1 : (0 : Int) < 1 + (e 0 : Int) := by omega
  have h2 : (0 : Int) < (e 0 : Int) := by omega
  simp [GcCtx.collectCycles, GcCtx.markRoots, GcCtx.markRootsLoop, GcCtx.markGray,
    GcCtx.markGrayKids, GcCtx.scanRoots, GcCtx.scanRootsLoop, GcCtx.scan, GcCtx.scanBlack,
    GcCtx.scanBlackKids, GcCtx.scanKids, GcCtx.collectRoots, GcCtx.collectRootsEnter,
    GcCtx.collectRootsLoop, GcCtx.collectWhite, GcCtx.collectWhiteKids, GcCtx.node,
    GcCtx.modifyNode, nCycle, cycSt, cycHeap, cycChildren, cycBuf, noBuf, blackCol, doneCnt,
    lookupA, updateA, h1, h2,
    show List.range 1 = [0] from rfl]

/-- C3: a simple cycle of any length that retains at least one external
strong handle (and into which no node outside the cycle holds an edge -
here the heap is the cycle itself) survives `collect_cycles`: no member is
freed (the free log stays empty and every member is still in the heap) and
on return every member's count equals its value immediately before the
call, `mark_gray`'s trial decrements having been exactly undone by
`scan_black`'s re-increments. -/
theorem nCycle_rescued (n : Nat) (e : Nat → Nat) (f k : Nat)
    (hn : 0 < n) (hk : k < n) (hek : 0 < e k) :
    ∃ σ', GcCtx.collectCycles (f + 4*n + 16) (nCycle n e) = some σ'
      ∧ σ'.freedLog = []
      ∧ ∀ i, i < n → (σ'.node i).map Node.count = ((nCycle n e).node i).map Node.count := by
  have hcnt : ∀ i, i < n →
      ((cycSt n blackCol (doneCnt e) noBuf []).node i).map Node.count =
      ((nCycle n e).node i).map Node.count := by
    intro i hi
    rw [cycSt_node, if_pos hi]
    rw [show (nCycle n e).node i = _ from cycSt_node n _ _ _ _ i, if_pos hi]
    simp [doneCnt]
    omega
  by_cases hn1 : n = 1
  · subst hn1
    have he0 : 0 < e 0 := by
      have hk0 : k = 0 := by omega
      rwa [hk0] at hek
    refine ⟨_, ?_, rfl, hcnt⟩
    rw [show f + 4*1 + 16 = f + 20 by omega]
    exact nCycle_one_collect e he0 f
  · have hn2 : 2 ≤ n := by omega
    have hp : ∃ j, 0 < e j := ⟨k, hek⟩
    refine ⟨_, nCycle_collect n (Nat.find hp) e hn2 ?_ (Nat.find_spec hp) ?_ f, rfl, hcnt⟩
    · have := Nat.find_min' hp hek
      omega
    · intro j hj
      have := Nat.find_min hp hj
      omega

/-- Witness: the three-cycle in which member 1 holds two external
handles. -/
theorem nCycle_rescued_w :
    ∃ σ', GcCtx.collectCycles (0 + 4*3 + 16) (nCycle 3 (fun i => if i = 1 then 2 else 0)) =
        some σ'
      ∧ σ'.freedLog = []
      ∧ ∀ i, i < 3 → (σ'.node i).map Node.count =
          ((nCycle 3 (fun i => if i = 1 then 2 else 0)).node i).map Node.count :=
  nCycle_rescued 3 (fun i => if i = 1 then 2 else 0) 0 1 (by decide) (by decide)
    (by decide)
